import Mathlib

/-!
# Reactive cell of `pkg/state/state.go`

A shallow embedding of the `Reactive[T]` cell (`NewReactive`, `Get`, `Set`,
`Subscribe`) together with the theorems that relate it to its written
specification.

Modelling choices.

* A Go listener is an arbitrary closure `func(value T)`.  What such a closure
  can do to the cell it is registered on is described by the free structure
  `Prog T`: return, panic, call `Get`, call `Set`, call `Subscribe`, write to
  standard output.  A listener is a function from the received value to such
  a program, tagged with a `name` that stands for the identity of the function
  reference.
* The mutex is a flag `mu` (`true` while held).  `Lock` on a held mutex by the
  only thread of the model never returns: outcome `deadlock`.
* A listener that calls `Set` re-enters the notification loop, so execution is
  bounded by `fuel`, the number of nested `Set` frames still allowed.
* `World.trace` is a ghost history of what happened: writes of the stored
  value, values returned by `Get`, invocations `l(val)` made by the loop of
  `Set` (with the nesting depth of that `Set`, the loop index and the listener
  name) and output lines.
* The demo program `cmd/demo/main.go` reads the lines that its scanner yields,
  given as a list of strings; its counter is a Go `int`, an integer of some
  width `bits` whose additions wrap around.
-/

namespace State

/-- Behaviour of a listener body with respect to the cell it is registered on. -/
inductive Prog (T : Type) where
  | ret : Prog T
  | fail : Prog T
  | get (k : T → Prog T) : Prog T
  | set (val : T) (k : Prog T) : Prog T
  | subscribe (name : Nat) (body : T → Prog T) (k : Prog T) : Prog T
  | print (s : String) (k : Prog T) : Prog T

/-- The type `Listener[T] func(value T)`; `name` is the identity of the reference. -/
structure Listener (T : Type) where
  name : Nat
  body : T → Prog T

/-- The struct `Reactive[T]`: mutex, stored value, listener slice. -/
structure Reactive (T : Type) where
  mu : Bool
  value : T
  listeners : List (Listener T)

/-- Ghost history entries. -/
inductive Event (T : Type) where
  | write (val : T) : Event T
  | read (val : T) : Event T
  | invoke (depth slot name : Nat) (val : T) : Event T
  | output (s : String) : Event T
  deriving DecidableEq, Repr

/-- A cell together with the history of the run so far. -/
structure World (T : Type) where
  cell : Reactive T
  trace : List (Event T)

/-- Result of running code: normal return, panic, blocked for ever on the mutex,
fuel exhausted; each with the state reached. -/
inductive Outcome (α σ : Type) where
  | ok (ret : α) (s : σ) : Outcome α σ
  | panic (s : σ) : Outcome α σ
  | deadlock (s : σ) : Outcome α σ
  | timeout (s : σ) : Outcome α σ

variable {T : Type}

/-- The call `r.mu.Lock()` on a free mutex. -/
def World.lock (w : World T) : World T :=
  { w with cell := { w.cell with mu := true } }

/-- The call `r.mu.Unlock()`. -/
def World.unlock (w : World T) : World T :=
  { w with cell := { w.cell with mu := false } }

/-- Append one entry to the ghost history. -/
def World.log (e : Event T) (w : World T) : World T :=
  { w with trace := w.trace ++ [e] }

/-- `NewReactive`: `&Reactive[T]{value: initial}`, the other fields zero. -/
def NewReactive (initial : T) : Reactive T :=
  { mu := false, value := initial, listeners := [] }

/-- The world right after construction: fresh cell, empty history. -/
def World.fresh (initial : T) : World T :=
  { cell := NewReactive initial, trace := [] }

/-- `Get`: lock, read `r.value`, unlock (deferred), return the value read. -/
def Get (w : World T) : Outcome T (World T) :=
  if w.cell.mu then .deadlock w
  else
    let w1 := w.lock
    let v := w1.cell.value
    .ok v ((w1.log (.read v)).unlock)

/-- `Subscribe`: lock, `r.listeners = append(r.listeners, listener)`, unlock. -/
def Subscribe (listener : Listener T) (w : World T) : Outcome Unit (World T) :=
  if w.cell.mu then .deadlock w
  else
    let w1 := w.lock
    let w2 : World T :=
      { w1 with cell := { w1.cell with listeners := w1.cell.listeners ++ [listener] } }
    .ok () w2.unlock

/-- Run a listener body; `setRec` is `Set` on the same cell, one frame deeper. -/
def runProg (setRec : T → World T → Outcome Unit (World T)) :
    Prog T → World T → Outcome Unit (World T)
  | .ret, w => .ok () w
  | .fail, w => .panic w
  | .get k, w =>
    match Get w with
    | .ok v w1 => runProg setRec (k v) w1
    | .panic w1 => .panic w1
    | .deadlock w1 => .deadlock w1
    | .timeout w1 => .timeout w1
  | .set val k, w =>
    match setRec val w with
    | .ok _ w1 => runProg setRec k w1
    | .panic w1 => .panic w1
    | .deadlock w1 => .deadlock w1
    | .timeout w1 => .timeout w1
  | .subscribe name body k, w =>
    match Subscribe ⟨name, body⟩ w with
    | .ok _ w1 => runProg setRec k w1
    | .panic w1 => .panic w1
    | .deadlock w1 => .deadlock w1
    | .timeout w1 => .timeout w1
  | .print s k, w => runProg setRec k (w.log (.output s))

/-- The loop `for _, l := range listenersCopy { l(val) }`, from index `slot` on.
A panic of `l(val)` leaves the loop at once. -/
def notify (setRec : T → World T → Outcome Unit (World T)) (depth : Nat) (val : T) :
    Nat → List (Listener T) → World T → Outcome Unit (World T)
  | _, [], w => .ok () w
  | slot, l :: ls, w =>
    match runProg setRec (l.body val) (w.log (.invoke depth slot l.name val)) with
    | .ok _ w1 => notify setRec depth val (slot + 1) ls w1
    | .panic w1 => .panic w1
    | .deadlock w1 => .deadlock w1
    | .timeout w1 => .timeout w1

/-- The critical section of `Set`: `r.value = val`, seen from outside the lock. -/
def World.store (val : T) (w : World T) : World T :=
  ({ w.lock with cell := { w.lock.cell with value := val } }.log (.write val))

/-- `Set`: lock, store, copy the listener slice, unlock, then call every copied
listener with `val`.  `depth` is the number of `Set` frames below this one. -/
def Set : Nat → Nat → T → World T → Outcome Unit (World T)
  | 0, _, _, w => .timeout w
  | fuel + 1, depth, val, w =>
    if w.cell.mu then .deadlock w
    else
      let w1 := w.store val
      let listenersCopy := ([] : List (Listener T)) ++ w1.cell.listeners
      let w2 := w1.unlock
      notify (Set fuel (depth + 1)) depth val 0 listenersCopy w2


/-- Values received by the registration at index `slot`, oldest first. -/
def received (slot : Nat) : List (Event T) → List T
  | [] => []
  | .invoke _ s _ v :: es => if s = slot then v :: received slot es else received slot es
  | _ :: es => received slot es

/-- The calls `l(val)` made by the loop of a `Set` frame at nesting `depth`:
loop index, listener name, argument. -/
def directCalls (depth : Nat) : List (Event T) → List (Nat × Nat × T)
  | [] => []
  | .invoke d s n v :: es =>
    if d = depth then (s, n, v) :: directCalls depth es else directCalls depth es
  | _ :: es => directCalls depth es

/-- The calls a snapshot is due: every entry once, in order, with `val`. -/
def dueCalls (val : T) : Nat → List (Listener T) → List (Nat × Nat × T)
  | _, [] => []
  | slot, l :: ls => (slot, l.name, val) :: dueCalls val (slot + 1) ls

/-- `Subscribe` called for each listener of a list, in order. -/
def subscribeAll : List (Listener T) → World T → Outcome Unit (World T)
  | [], w => .ok () w
  | l :: ls, w =>
    match Subscribe l w with
    | .ok _ w1 => subscribeAll ls w1
    | .panic w1 => .panic w1
    | .deadlock w1 => .deadlock w1
    | .timeout w1 => .timeout w1

/-- The calls `Set(v1)`, ..., `Set(vn)` made in order by the top-level thread. -/
def setAll (fuel : Nat) : List T → World T → Outcome Unit (World T)
  | [], w => .ok () w
  | v :: vs, w =>
    match Set fuel 0 v w with
    | .ok _ w1 => setAll fuel vs w1
    | .panic w1 => .panic w1
    | .deadlock w1 => .deadlock w1
    | .timeout w1 => .timeout w1

/-- A property of the state an outcome leaves behind, for a run that is not blocked. -/
def Outcome.Holds {α σ : Type} (P : σ → Prop) : Outcome α σ → Prop
  | .ok _ s => P s
  | .panic s => P s
  | .deadlock _ => False
  | .timeout s => P s

/-- An invocation entry made at nesting `d` or deeper, for a loop index below `n`. -/
def Event.Within (d n : Nat) : Event T → Prop
  | .invoke d1 s _ _ => d ≤ d1 ∧ s < n
  | _ => True

/-- What any run started with a free mutex at nesting `d` does to the world:
registrations are only appended, the history is only extended, by entries of
nesting `d` or deeper, and the mutex is free again. -/
def Good (d : Nat) (w w1 : World T) : Prop :=
  (∃ ls, w1.cell.listeners = w.cell.listeners ++ ls) ∧
  (∃ es, w1.trace = w.trace ++ es ∧ ∀ e ∈ es, Event.Within d w1.cell.listeners.length e) ∧
  w1.cell.mu = false

/-- The history entries added between an earlier world and a later one. -/
def newEvents (w w1 : World T) : List (Event T) :=
  w1.trace.drop w.trace.length

/-- A body that never calls `Set` on the cell, and registers only such bodies. -/
def Prog.NoSet : Prog T → Prop
  | .ret => True
  | .fail => True
  | .get k => ∀ v, (k v).NoSet
  | .set _ _ => False
  | .subscribe _ body k => (∀ v, (body v).NoSet) ∧ k.NoSet
  | .print _ k => k.NoSet

/-- A body that never panics by itself, and registers only such bodies. -/
def Prog.NoFail : Prog T → Prop
  | .ret => True
  | .fail => False
  | .get k => ∀ v, (k v).NoFail
  | .set _ k => k.NoFail
  | .subscribe _ body k => (∀ v, (body v).NoFail) ∧ k.NoFail
  | .print _ k => k.NoFail

/-- A listener that never calls `Set` on the cell, whatever value it receives. -/
def Listener.NoSet (l : Listener T) : Prop := ∀ v, (l.body v).NoSet

/-- A listener that returns normally, whatever value it receives. -/
def Listener.NoFail (l : Listener T) : Prop := ∀ v, (l.body v).NoFail

/-- A body that, on every path, reaches a call `Subscribe(⟨name, body⟩)`. -/
inductive Prog.Registers (name : Nat) (body : T → Prog T) : Prog T → Prop where
  | here (k : Prog T) : Prog.Registers name body (.subscribe name body k)
  | afterGet (k : T → Prog T) :
      (∀ v, Prog.Registers name body (k v)) → Prog.Registers name body (.get k)
  | afterSet (val : T) (k : Prog T) :
      Prog.Registers name body k → Prog.Registers name body (.set val k)
  | afterSubscribe (n : Nat) (b : T → Prog T) (k : Prog T) :
      Prog.Registers name body k → Prog.Registers name body (.subscribe n b k)
  | afterPrint (s : String) (k : Prog T) :
      Prog.Registers name body k → Prog.Registers name body (.print s k)

/-- History entries that are neither a write nor an invocation. -/
def Event.Silent : Event T → Prop
  | .write _ => False
  | .read _ => True
  | .invoke _ _ _ _ => False
  | .output _ => True

/-- An outcome that is a normal return or a panic, with a property of its state. -/
def Outcome.Done {α σ : Type} (P : σ → Prop) : Outcome α σ → Prop
  | .ok _ s => P s
  | .panic s => P s
  | .deadlock _ => False
  | .timeout _ => False

/-- An outcome that is a normal return, with a property of its state. -/
def Outcome.Fine {α σ : Type} (P : σ → Prop) : Outcome α σ → Prop
  | .ok _ s => P s
  | .panic _ => False
  | .deadlock _ => False
  | .timeout _ => False

/-- A listener that neither calls `Set` on the cell nor panics. -/
def Listener.Calm (l : Listener T) : Prop := l.NoSet ∧ l.NoFail

/-- The mutex is free, the stored value is `v`, and the registrations are the
earlier ones followed by new ones that satisfy `P`. -/
def Kept (P : Listener T → Prop) (v : T) (w w1 : World T) : Prop :=
  w1.cell.mu = false ∧ w1.cell.value = v ∧
  ∃ xs, w1.cell.listeners = w.cell.listeners ++ xs ∧ ∀ l ∈ xs, P l

/-- What a body that never calls `Set` does to the world: the stored value stays,
and the history gets neither a write nor an invocation. -/
def Quiet (P : Listener T → Prop) (w w1 : World T) : Prop :=
  Kept P w.cell.value w w1 ∧ ∃ es, w1.trace = w.trace ++ es ∧ ∀ e ∈ es, Event.Silent e

/-- The last element of a list, or `x` when the list is empty. -/
def lastOr (x : T) : List T → T
  | [] => x
  | v :: vs => lastOr v vs

/-- A listener that only records what it receives: its body returns at once, and
the history keeps the invocation. -/
def recorder (name : Nat) : Listener Nat :=
  ⟨name, fun _ => .ret⟩

/-- A listener that, whenever it is invoked, subscribes the listener `l` to the
cell and returns. -/
def registrar (name : Nat) (l : Listener Nat) : Listener Nat :=
  ⟨name, fun _ => .subscribe l.name l.body .ret⟩

/-- A property of worlds that every elementary step of the operations keeps:
the read of `Get`, the append of `Subscribe`, an output line, the entry for an
invocation, and the critical section of `Set`. -/
structure StepClosed (P : World T → Prop) : Prop where
  read : ∀ w : World T, w.cell.mu = false → P w →
    P ⟨w.cell, w.trace ++ [.read w.cell.value]⟩
  sub : ∀ (l : Listener T) (w : World T), w.cell.mu = false → P w →
    P ⟨⟨false, w.cell.value, w.cell.listeners ++ [l]⟩, w.trace⟩
  out : ∀ (s : String) (w : World T), P w → P (w.log (.output s))
  call : ∀ (d slot n : Nat) (v : T) (w : World T), P w → P (w.log (.invoke d slot n v))
  store : ∀ (v : T) (w : World T), w.cell.mu = false → P w →
    P ⟨⟨false, v, w.cell.listeners⟩, w.trace ++ [.write v]⟩

/-- A listener that panics whenever it is invoked. -/
def failing (name : Nat) : Listener Nat :=
  ⟨name, fun _ => .fail⟩

/-- Whether a run was cut off for lack of fuel. -/
def Outcome.isTimeout {α σ : Type} : Outcome α σ → Bool
  | .timeout _ => true
  | _ => false

/-- One call made by the top-level thread. -/
inductive Op (T : Type) where
  | get : Op T
  | set (val : T) : Op T
  | subscribe (l : Listener T) : Op T

/-- A finite sequence of calls made by the top-level thread. -/
def runOps (fuel : Nat) : List (Op T) → World T → Outcome Unit (World T)
  | [], w => .ok () w
  | .get :: ops, w =>
    match Get w with
    | .ok _ w1 => runOps fuel ops w1
    | .panic w1 => .panic w1
    | .deadlock w1 => .deadlock w1
    | .timeout w1 => .timeout w1
  | .set val :: ops, w =>
    match Set fuel 0 val w with
    | .ok _ w1 => runOps fuel ops w1
    | .panic w1 => .panic w1
    | .deadlock w1 => .deadlock w1
    | .timeout w1 => .timeout w1
  | .subscribe l :: ops, w =>
    match Subscribe l w with
    | .ok _ w1 => runOps fuel ops w1
    | .panic w1 => .panic w1
    | .deadlock w1 => .deadlock w1
    | .timeout w1 => .timeout w1

/-- Every value a `Get` returned was the initial one or had been written before. -/
def Provenance (initial : T) (tr : List (Event T)) : Prop :=
  ∀ pre v post, tr = pre ++ .read v :: post → v = initial ∨ .write v ∈ pre

/-- The stored value is the initial one or was written, and so was every value
that a `Get` returned, at the time it returned. -/
def Sourced (initial : T) (w : World T) : Prop :=
  (w.cell.value = initial ∨ Event.write w.cell.value ∈ w.trace) ∧ Provenance initial w.trace

/-- A listener that calls `Set(next)` on the cell when it receives `trigger`, and
returns at once on any other value. -/
def echo (name trigger next : Nat) : Listener Nat :=
  ⟨name, fun x => if x = trigger then .set next .ret else .ret⟩

/-- A body that never calls `Subscribe` on the cell. -/
def Prog.NoSubscribe : Prog T → Prop
  | .ret => True
  | .fail => True
  | .get k => ∀ v, (k v).NoSubscribe
  | .set _ k => k.NoSubscribe
  | .subscribe _ _ _ => False
  | .print _ k => k.NoSubscribe

/-- A listener that never calls `Subscribe` on the cell, whatever it receives. -/
def Listener.NoSubscribe (l : Listener T) : Prop := ∀ v, (l.body v).NoSubscribe

/-- The listener sequence is still the one of `w`, and the mutex is free. -/
def Fixed (w w1 : World T) : Prop :=
  w1.cell.listeners = w.cell.listeners ∧ w1.cell.mu = false

/-- The values stored by the `Set` calls of a history, oldest first. -/
def writesOf : List (Event T) → List T
  | [] => []
  | .write v :: es => v :: writesOf es
  | _ :: es => writesOf es

/-- Go's `int` of width `bits`: the result of an addition, wrapped around in
two's complement. -/
def wrapInt (bits : Nat) (x : Int) : Int :=
  (x + 2 ^ (bits - 1)) % 2 ^ bits - 2 ^ (bits - 1)

/-- The line that `main` writes with `fmt.Println` before its loop. -/
def banner : String :=
  "Press Enter to increment the counter. Type \x27q\x27 and press Enter to exit.\n"

/-- The listener of `main`: `fmt.Printf("\rCounter: %d", value)`. -/
def printer : Listener Int :=
  ⟨0, fun value => .print ("\rCounter: " ++ toString value) .ret⟩

/-- The loop of `main`.  The list holds the lines that `scanner.Scan()` yields,
as returned by `scanner.Text()`; the empty list is `Scan()` returning false. -/
def demoLoop (bits fuel : Nat) : List String → World Int → Outcome Unit (World Int)
  | [], w => .ok () w
  | input :: rest, w =>
    if input = "q" then .ok () w
    else
      match Get w with
      | .ok current w1 =>
        match Set fuel 0 (wrapInt bits (current + 1)) w1 with
        | .ok _ w2 => demoLoop bits fuel rest w2
        | .panic w2 => .panic w2
        | .deadlock w2 => .deadlock w2
        | .timeout w2 => .timeout w2
      | .panic w1 => .panic w1
      | .deadlock w1 => .deadlock w1
      | .timeout w1 => .timeout w1

/-- The function `main` of the demo: construct the counter with `0`, subscribe
the printing listener, write the banner, run the loop. -/
def demoMain (bits fuel : Nat) (lines : List String) : Outcome Unit (World Int) :=
  match Subscribe printer (World.fresh 0) with
  | .ok _ w1 => demoLoop bits fuel lines (w1.log (.output banner))
  | .panic w1 => .panic w1
  | .deadlock w1 => .deadlock w1
  | .timeout w1 => .timeout w1

/-- What was written to standard output, piece by piece, oldest first. -/
def outputsOf : List (Event T) → List String
  | [] => []
  | .output s :: es => s :: outputsOf es
  | _ :: es => outputsOf es

/-- The input lines before the first line equal to `"q"`. -/
def beforeQuit : List String → List String
  | [] => []
  | s :: rest => if s = "q" then [] else s :: beforeQuit rest

/-- What the listener writes for the increments number `k + 1`, ..., `k + n` of
a counter of width `bits`. -/
def counterLines (bits : Nat) : Nat → Nat → List String
  | _, 0 => []
  | k, n + 1 =>
    ("\rCounter: " ++ toString (wrapInt bits ((k : Int) + 1))) :: counterLines bits (k + 1) n

/-- The zero value of the struct `Reactive[T]`, as declared by `var r Reactive[T]`
without `NewReactive`: the zero `sync.Mutex` (unlocked), the zero value of `T`,
the nil slice. -/
def Reactive.zeroValue (zero : T) : Reactive T :=
  { mu := false, value := zero, listeners := [] }

/-- The listeners handed to the `Subscribe` calls that a body makes while it
runs, in call order, up to the point where the run ends (return, panic, block or
lack of fuel).  `setSubs` gives the same for a `Set` made by the body. -/
def runProgSubs (setRec : T → World T → Outcome Unit (World T))
    (setSubs : T → World T → List (Listener T)) : Prog T → World T → List (Listener T)
  | .ret, _ => []
  | .fail, _ => []
  | .get k, w =>
    match Get w with
    | .ok v w1 => runProgSubs setRec setSubs (k v) w1
    | .panic _ => []
    | .deadlock _ => []
    | .timeout _ => []
  | .set val k, w =>
    match setRec val w with
    | .ok _ w1 => setSubs val w ++ runProgSubs setRec setSubs k w1
    | .panic _ => setSubs val w
    | .deadlock _ => setSubs val w
    | .timeout _ => setSubs val w
  | .subscribe name body k, w =>
    match Subscribe ⟨name, body⟩ w with
    | .ok _ w1 => ⟨name, body⟩ :: runProgSubs setRec setSubs k w1
    | .panic _ => []
    | .deadlock _ => []
    | .timeout _ => []
  | .print s k, w => runProgSubs setRec setSubs k (w.log (.output s))

/-- The listeners handed to `Subscribe` during the loop of `Set`, in call order:
those of the body of the first listener, then, if that body returned, those of
the rest of the loop. -/
def notifySubs (setRec : T → World T → Outcome Unit (World T))
    (setSubs : T → World T → List (Listener T)) (depth : Nat) (val : T) :
    Nat → List (Listener T) → World T → List (Listener T)
  | _, [], _ => []
  | slot, l :: ls, w =>
    match runProg setRec (l.body val) (w.log (.invoke depth slot l.name val)) with
    | .ok _ w1 =>
      runProgSubs setRec setSubs (l.body val) (w.log (.invoke depth slot l.name val)) ++
        notifySubs setRec setSubs depth val (slot + 1) ls w1
    | .panic _ =>
      runProgSubs setRec setSubs (l.body val) (w.log (.invoke depth slot l.name val))
    | .deadlock _ =>
      runProgSubs setRec setSubs (l.body val) (w.log (.invoke depth slot l.name val))
    | .timeout _ =>
      runProgSubs setRec setSubs (l.body val) (w.log (.invoke depth slot l.name val))

/-- The listeners handed to `Subscribe` during a call of `Set`, in call order, by
the listeners it invokes and by the `Set` calls these make in turn. -/
def SetSubs : Nat → Nat → T → World T → List (Listener T)
  | 0, _, _, _ => []
  | fuel + 1, depth, val, w =>
    if w.cell.mu then []
    else
      let w1 := w.store val
      let listenersCopy := ([] : List (Listener T)) ++ w1.cell.listeners
      let w2 := w1.unlock
      notifySubs (Set fuel (depth + 1)) (SetSubs fuel (depth + 1)) depth val 0 listenersCopy w2

/-- The listener sequence of `w1` is the one of `w` followed by `xs`, and the
mutex is free. -/
def Added (xs : List (Listener T)) (w w1 : World T) : Prop :=
  w1.cell.listeners = w.cell.listeners ++ xs ∧ w1.cell.mu = false

/-- A listener that, whenever it is invoked, subscribes the listener `l` to the
cell and then panics. -/
def failingRegistrar (name : Nat) (l : Listener Nat) : Listener Nat :=
  ⟨name, fun _ => .subscribe l.name l.body .fail⟩

end State

namespace State

variable {T : Type}

/-! ## Elementary facts about the operations -/

theorem Get_free (w : World T) (h : w.cell.mu = false) :
    Get w = .ok w.cell.value ⟨w.cell, w.trace ++ [.read w.cell.value]⟩ := by
  obtain ⟨⟨mu, value, listeners⟩, trace⟩ := w
  simp only at h
  subst h
  rfl

theorem Subscribe_free (l : Listener T) (w : World T) (h : w.cell.mu = false) :
    Subscribe l w = .ok () ⟨⟨false, w.cell.value, w.cell.listeners ++ [l]⟩, w.trace⟩ := by
  obtain ⟨⟨mu, value, listeners⟩, trace⟩ := w
  simp only at h
  subst h
  rfl

theorem Set_free (fuel d : Nat) (v : T) (w : World T) (h : w.cell.mu = false) :
    Set (fuel + 1) d v w =
      notify (Set fuel (d + 1)) d v 0 w.cell.listeners
        ⟨⟨false, v, w.cell.listeners⟩, w.trace ++ [.write v]⟩ := by
  obtain ⟨⟨mu, value, listeners⟩, trace⟩ := w
  simp only at h
  subst h
  rfl

theorem Within_mono {d d1 n n1 : Nat} (hd : d1 ≤ d) (hn : n ≤ n1) (e : Event T)
    (h : Event.Within d n e) : Event.Within d1 n1 e := by
  cases e with
  | invoke d2 s nm v =>
    simp only [Event.Within] at h ⊢
    omega
  | write v => trivial
  | read v => trivial
  | output s => trivial

theorem Good_refl (d : Nat) (w : World T) (h : w.cell.mu = false) : Good d w w :=
  ⟨⟨[], by simp⟩, ⟨[], by simp⟩, h⟩

theorem Good_trans {d : Nat} {w w1 w2 : World T} (h1 : Good d w w1) (h2 : Good d w1 w2) :
    Good d w w2 := by
  obtain ⟨⟨ls1, hl1⟩, ⟨es1, he1, hw1⟩, _⟩ := h1
  obtain ⟨⟨ls2, hl2⟩, ⟨es2, he2, hw2⟩, hm2⟩ := h2
  refine ⟨⟨ls1 ++ ls2, by rw [hl2, hl1, List.append_assoc]⟩,
    ⟨es1 ++ es2, by rw [he2, he1, List.append_assoc], ?_⟩, hm2⟩
  intro e he
  rcases List.mem_append.mp he with he | he
  · refine Within_mono (Nat.le_refl d) ?_ e (hw1 e he)
    rw [hl2, List.length_append]
    omega
  · exact hw2 e he

theorem Good_mono {d : Nat} {w w1 : World T} (h : Good (d + 1) w w1) : Good d w w1 := by
  obtain ⟨hl, ⟨es, he, hw⟩, hm⟩ := h
  exact ⟨hl, ⟨es, he, fun e hmem => Within_mono (Nat.le_succ d) (Nat.le_refl _) e (hw e hmem)⟩, hm⟩

theorem Holds_imp {α σ : Type} {P Q : σ → Prop} (h : ∀ s, P s → Q s) (o : Outcome α σ)
    (ho : o.Holds P) : o.Holds Q := by
  cases o with
  | ok r s => exact h s ho
  | panic s => exact h s ho
  | deadlock s => exact ho
  | timeout s => exact h s ho

/-! ## Every run keeps registrations and history, and frees the mutex -/

theorem runProg_good (setRec : T → World T → Outcome Unit (World T)) (d : Nat)
    (hset : ∀ v w, w.cell.mu = false → (setRec v w).Holds (Good (d + 1) w))
    (p : Prog T) : ∀ w : World T, w.cell.mu = false →
      (runProg setRec p w).Holds (Good (d + 1) w) := by
  induction p with
  | ret => intro w hw; exact Good_refl _ w hw
  | fail => intro w hw; exact Good_refl _ w hw
  | get k ih =>
    intro w hw
    simp only [runProg, Get_free w hw]
    have hstep : Good (d + 1) w ⟨w.cell, w.trace ++ [.read w.cell.value]⟩ :=
      ⟨⟨[], by simp⟩, ⟨[.read w.cell.value], rfl, by simp [Event.Within]⟩, hw⟩
    exact Holds_imp (fun s hs => Good_trans hstep hs) _ (ih _ _ hw)
  | set val k ih =>
    intro w hw
    have h1 := hset val w hw
    simp only [runProg]
    cases hs : setRec val w with
    | ok r w1 =>
      rw [hs] at h1
      exact Holds_imp (fun s h2 => Good_trans h1 h2) _ (ih w1 h1.2.2)
    | panic w1 => rw [hs] at h1; exact h1
    | deadlock w1 => rw [hs] at h1; exact h1
    | timeout w1 => rw [hs] at h1; exact h1
  | subscribe name body k _ ih =>
    intro w hw
    simp only [runProg, Subscribe_free _ w hw]
    have hstep : Good (d + 1) w
        ⟨⟨false, w.cell.value, w.cell.listeners ++ [⟨name, body⟩]⟩, w.trace⟩ :=
      ⟨⟨[⟨name, body⟩], rfl⟩, ⟨[], by simp⟩, rfl⟩
    exact Holds_imp (fun s hs => Good_trans hstep hs) _ (ih _ rfl)
  | print s k ih =>
    intro w hw
    simp only [runProg]
    have hstep : Good (d + 1) w (w.log (.output s)) :=
      ⟨⟨[], by simp [World.log]⟩, ⟨[.output s], rfl, by simp [Event.Within]⟩, hw⟩
    exact Holds_imp (fun s hs => Good_trans hstep hs) _ (ih _ hw)

theorem notify_good (setRec : T → World T → Outcome Unit (World T)) (d : Nat) (v : T)
    (hset : ∀ v w, w.cell.mu = false → (setRec v w).Holds (Good (d + 1) w))
    (ls : List (Listener T)) : ∀ (slot : Nat) (w : World T), w.cell.mu = false →
      slot + ls.length ≤ w.cell.listeners.length →
      (notify setRec d v slot ls w).Holds (Good d w) := by
  induction ls with
  | nil => intro slot w hw _; exact Good_refl _ w hw
  | cons l ls ih =>
    intro slot w hw hlen
    simp only [List.length_cons] at hlen
    have hstep : Good d w (w.log (.invoke d slot l.name v)) :=
      ⟨⟨[], by simp [World.log]⟩,
        ⟨[.invoke d slot l.name v], rfl, by simp [Event.Within, World.log]; omega⟩, hw⟩
    have hrun := runProg_good setRec d hset (l.body v) (w.log (.invoke d slot l.name v)) hw
    simp only [notify]
    cases hr : runProg setRec (l.body v) (w.log (.invoke d slot l.name v)) with
    | ok r w1 =>
      rw [hr] at hrun
      have hg : Good d w w1 := Good_trans hstep (Good_mono hrun)
      have hlen1 : slot + 1 + ls.length ≤ w1.cell.listeners.length := by
        obtain ⟨⟨xs, hx⟩, _, _⟩ := hg
        rw [hx, List.length_append]
        omega
      exact Holds_imp (fun s h2 => Good_trans hg h2) _ (ih (slot + 1) w1 hrun.2.2 hlen1)
    | panic w1 =>
      rw [hr] at hrun
      exact Good_trans hstep (Good_mono hrun)
    | deadlock w1 => rw [hr] at hrun; exact hrun
    | timeout w1 =>
      rw [hr] at hrun
      exact Good_trans hstep (Good_mono hrun)

theorem Set_good (fuel : Nat) : ∀ (d : Nat) (v : T) (w : World T), w.cell.mu = false →
    (Set fuel d v w).Holds (Good d w) := by
  induction fuel with
  | zero => intro d v w hw; exact Good_refl d w hw
  | succ fuel ih =>
    intro d v w hw
    rw [Set_free fuel d v w hw]
    have hstep : Good d w ⟨⟨false, v, w.cell.listeners⟩, w.trace ++ [.write v]⟩ :=
      ⟨⟨[], by simp⟩, ⟨[.write v], rfl, by simp [Event.Within]⟩, rfl⟩
    refine Holds_imp (fun s hs => Good_trans hstep hs) _ ?_
    exact notify_good (Set fuel (d + 1)) d v (fun v1 w1 h1 => ih (d + 1) v1 w1 h1)
      w.cell.listeners 0 _ rfl (by simp)

/-! ## The calls made by one `Set` frame -/

theorem directCalls_append (d : Nat) (xs ys : List (Event T)) :
    directCalls d (xs ++ ys) = directCalls d xs ++ directCalls d ys := by
  induction xs with
  | nil => rfl
  | cons e xs ih =>
    cases e with
    | invoke d1 s n v =>
      by_cases h : d1 = d <;> simp [directCalls, h, ih]
    | write v => simpa [directCalls] using ih
    | read v => simpa [directCalls] using ih
    | output s => simpa [directCalls] using ih

theorem directCalls_deeper (d n : Nat) (es : List (Event T))
    (h : ∀ e ∈ es, Event.Within (d + 1) n e) : directCalls d es = [] := by
  induction es with
  | nil => rfl
  | cons e es ih =>
    have he := h e (List.mem_cons_self e es)
    have ih1 := ih (fun x hx => h x (List.mem_cons_of_mem e hx))
    cases e with
    | invoke d1 s nm v =>
      simp only [Event.Within] at he
      have hne : ¬ d1 = d := by omega
      simp [directCalls, hne, ih1]
    | write v => simpa [directCalls] using ih1
    | read v => simpa [directCalls] using ih1
    | output s => simpa [directCalls] using ih1

theorem dueCalls_append (v : T) (xs ys : List (Listener T)) : ∀ slot : Nat,
    dueCalls v slot (xs ++ ys) = dueCalls v slot xs ++ dueCalls v (slot + xs.length) ys := by
  induction xs with
  | nil => intro slot; simp [dueCalls]
  | cons x xs ih =>
    intro slot
    have h1 : slot + 1 + xs.length = slot + (xs.length + 1) := by omega
    have h2 := ih (slot + 1)
    rw [h1] at h2
    show (slot, x.name, v) :: dueCalls v (slot + 1) (xs ++ ys) =
      (slot, x.name, v) :: dueCalls v (slot + 1) xs ++ dueCalls v (slot + (xs.length + 1)) ys
    rw [h2]
    rfl

/-- The body of one loop iteration adds no call at the nesting of the loop. -/
theorem runProg_calls (setRec : T → World T → Outcome Unit (World T)) (d : Nat)
    (hset : ∀ v w, w.cell.mu = false → (setRec v w).Holds (Good (d + 1) w))
    (p : Prog T) (w : World T) (hw : w.cell.mu = false) :
    (runProg setRec p w).Holds
      (fun w1 => w1.cell.mu = false ∧ ∃ es, w1.trace = w.trace ++ es ∧ directCalls d es = []) := by
  refine Holds_imp ?_ _ (runProg_good setRec d hset p w hw)
  rintro s ⟨_, ⟨es, he, hin⟩, hm⟩
  exact ⟨hm, es, he, directCalls_deeper d _ es hin⟩

theorem notify_ok_calls (setRec : T → World T → Outcome Unit (World T)) (d : Nat) (v : T)
    (hset : ∀ v w, w.cell.mu = false → (setRec v w).Holds (Good (d + 1) w))
    (ls : List (Listener T)) : ∀ (slot : Nat) (w w1 : World T), w.cell.mu = false →
      notify setRec d v slot ls w = .ok () w1 →
      ∃ es, w1.trace = w.trace ++ es ∧ directCalls d es = dueCalls v slot ls := by
  induction ls with
  | nil =>
    intro slot w w1 _ h
    simp only [notify, Outcome.ok.injEq, true_and] at h
    subst h
    exact ⟨[], by simp, rfl⟩
  | cons l ls ih =>
    intro slot w w1 hw h
    have hrun := runProg_calls setRec d hset (l.body v) (w.log (.invoke d slot l.name v)) hw
    simp only [notify] at h
    cases hr : runProg setRec (l.body v) (w.log (.invoke d slot l.name v)) with
    | ok r w2 =>
      rw [hr] at hrun h
      obtain ⟨hm, es1, he1, hc1⟩ := hrun
      obtain ⟨es2, he2, hc2⟩ := ih (slot + 1) w2 w1 hm h
      refine ⟨.invoke d slot l.name v :: (es1 ++ es2), ?_, ?_⟩
      · rw [he2, he1]; simp [World.log]
      · simp [directCalls, directCalls_append, hc1, hc2, dueCalls]
    | panic w2 => rw [hr] at h; simp at h
    | deadlock w2 => rw [hr] at h; simp at h
    | timeout w2 => rw [hr] at h; simp at h

theorem notify_panic_calls (setRec : T → World T → Outcome Unit (World T)) (d : Nat) (v : T)
    (hset : ∀ v w, w.cell.mu = false → (setRec v w).Holds (Good (d + 1) w))
    (ls : List (Listener T)) : ∀ (slot : Nat) (w w1 : World T), w.cell.mu = false →
      notify setRec d v slot ls w = .panic w1 →
      ∃ pre l post es, ls = pre ++ l :: post ∧ w1.trace = w.trace ++ es ∧
        directCalls d es = dueCalls v slot (pre ++ [l]) := by
  induction ls with
  | nil => intro slot w w1 _ h; simp [notify] at h
  | cons l ls ih =>
    intro slot w w1 hw h
    have hrun := runProg_calls setRec d hset (l.body v) (w.log (.invoke d slot l.name v)) hw
    simp only [notify] at h
    cases hr : runProg setRec (l.body v) (w.log (.invoke d slot l.name v)) with
    | ok r w2 =>
      rw [hr] at hrun h
      obtain ⟨hm, es1, he1, hc1⟩ := hrun
      obtain ⟨pre, x, post, es2, hls, he2, hc2⟩ := ih (slot + 1) w2 w1 hm h
      refine ⟨l :: pre, x, post, .invoke d slot l.name v :: (es1 ++ es2), ?_, ?_, ?_⟩
      · rw [hls]; rfl
      · rw [he2, he1]; simp [World.log]
      · simp [directCalls, directCalls_append, hc1, hc2, dueCalls]
    | panic w2 =>
      rw [hr] at hrun h
      simp only [Outcome.panic.injEq] at h
      subst h
      obtain ⟨_, es1, he1, hc1⟩ := hrun
      refine ⟨[], l, ls, .invoke d slot l.name v :: es1, rfl, ?_, ?_⟩
      · rw [he1]; simp [World.log]
      · simp [directCalls, hc1, dueCalls]
    | deadlock w2 => rw [hr] at h; simp at h
    | timeout w2 => rw [hr] at h; simp at h

/-! ## Listeners that do not call `Set` -/

theorem newEvents_eq {w w1 : World T} {es : List (Event T)} (h : w1.trace = w.trace ++ es) :
    newEvents w w1 = es := by
  simp [newEvents, h]

theorem Quiet_refl (P : Listener T → Prop) (w : World T) (h : w.cell.mu = false) :
    Quiet P w w :=
  ⟨⟨h, rfl, [], by simp⟩, [], by simp⟩

theorem Kept_after {P : Listener T → Prop} {v : T} {w w1 w2 : World T}
    (h1 : ∃ xs, w1.cell.listeners = w.cell.listeners ++ xs ∧ ∀ l ∈ xs, P l)
    (h2 : Kept P v w1 w2) : Kept P v w w2 := by
  obtain ⟨xs1, hx1, hp1⟩ := h1
  obtain ⟨hm, hv, xs2, hx2, hp2⟩ := h2
  refine ⟨hm, hv, xs1 ++ xs2, by rw [hx2, hx1, List.append_assoc], ?_⟩
  intro l hl
  rcases List.mem_append.mp hl with hl | hl
  · exact hp1 l hl
  · exact hp2 l hl

theorem Quiet_trans {P : Listener T → Prop} {w w1 w2 : World T}
    (h1 : Quiet P w w1) (h2 : Quiet P w1 w2) : Quiet P w w2 := by
  obtain ⟨⟨_, hv1, hx1⟩, es1, he1, hs1⟩ := h1
  obtain ⟨hk2, es2, he2, hs2⟩ := h2
  rw [hv1] at hk2
  refine ⟨Kept_after hx1 hk2, es1 ++ es2, by rw [he2, he1, List.append_assoc], ?_⟩
  intro e he
  rcases List.mem_append.mp he with he | he
  · exact hs1 e he
  · exact hs2 e he

theorem Done_imp {α σ : Type} {P Q : σ → Prop} (h : ∀ s, P s → Q s) (o : Outcome α σ)
    (ho : o.Done P) : o.Done Q := by
  cases o with
  | ok r s => exact h s ho
  | panic s => exact h s ho
  | deadlock s => exact ho
  | timeout s => exact ho

theorem Fine_imp {α σ : Type} {P Q : σ → Prop} (h : ∀ s, P s → Q s) (o : Outcome α σ)
    (ho : o.Fine P) : o.Fine Q := by
  cases o with
  | ok r s => exact h s ho
  | panic s => exact ho
  | deadlock s => exact ho
  | timeout s => exact ho

theorem Fine_done {α σ : Type} {P : σ → Prop} (o : Outcome α σ) (ho : o.Fine P) : o.Done P := by
  cases o with
  | ok r s => exact ho
  | panic s => exact ho.elim
  | deadlock s => exact ho
  | timeout s => exact ho

theorem runProg_noSet (setRec : T → World T → Outcome Unit (World T)) (p : Prog T) :
    ∀ w : World T, p.NoSet → w.cell.mu = false →
      (runProg setRec p w).Done (Quiet Listener.NoSet w) := by
  induction p with
  | ret => intro w _ hw; exact Quiet_refl _ w hw
  | fail => intro w _ hw; exact Quiet_refl _ w hw
  | get k ih =>
    intro w hp hw
    simp only [runProg, Get_free w hw]
    have hstep : Quiet Listener.NoSet w ⟨w.cell, w.trace ++ [.read w.cell.value]⟩ :=
      ⟨⟨hw, rfl, [], by simp⟩, [.read w.cell.value], rfl, by simp [Event.Silent]⟩
    exact Done_imp (fun s hs => Quiet_trans hstep hs) _ (ih _ _ (hp _) hw)
  | set val k _ => intro w hp _; exact hp.elim
  | subscribe name body k _ ih =>
    intro w hp hw
    simp only [runProg, Subscribe_free _ w hw]
    have hstep : Quiet Listener.NoSet w
        ⟨⟨false, w.cell.value, w.cell.listeners ++ [⟨name, body⟩]⟩, w.trace⟩ :=
      ⟨⟨rfl, rfl, [⟨name, body⟩], rfl, by simpa [Listener.NoSet] using hp.1⟩, [], by simp⟩
    exact Done_imp (fun s hs => Quiet_trans hstep hs) _ (ih _ hp.2 rfl)
  | print s k ih =>
    intro w hp hw
    simp only [runProg]
    have hstep : Quiet Listener.NoSet w (w.log (.output s)) :=
      ⟨⟨hw, rfl, [], by simp [World.log]⟩, [.output s], rfl, by simp [Event.Silent]⟩
    exact Done_imp (fun s hs => Quiet_trans hstep hs) _ (ih _ hp hw)

theorem runProg_calm (setRec : T → World T → Outcome Unit (World T)) (p : Prog T) :
    ∀ w : World T, p.NoSet → p.NoFail → w.cell.mu = false →
      (runProg setRec p w).Fine (Quiet Listener.Calm w) := by
  induction p with
  | ret => intro w _ _ hw; exact Quiet_refl _ w hw
  | fail => intro w _ hf _; exact hf.elim
  | get k ih =>
    intro w hp hf hw
    simp only [runProg, Get_free w hw]
    have hstep : Quiet Listener.Calm w ⟨w.cell, w.trace ++ [.read w.cell.value]⟩ :=
      ⟨⟨hw, rfl, [], by simp⟩, [.read w.cell.value], rfl, by simp [Event.Silent]⟩
    exact Fine_imp (fun s hs => Quiet_trans hstep hs) _ (ih _ _ (hp _) (hf _) hw)
  | set val k _ => intro w hp _ _; exact hp.elim
  | subscribe name body k _ ih =>
    intro w hp hf hw
    simp only [runProg, Subscribe_free _ w hw]
    have hstep : Quiet Listener.Calm w
        ⟨⟨false, w.cell.value, w.cell.listeners ++ [⟨name, body⟩]⟩, w.trace⟩ :=
      ⟨⟨rfl, rfl, [⟨name, body⟩], rfl,
        by simpa [Listener.Calm, Listener.NoSet, Listener.NoFail] using ⟨hp.1, hf.1⟩⟩, [], by simp⟩
    exact Fine_imp (fun s hs => Quiet_trans hstep hs) _ (ih _ hp.2 hf.2 rfl)
  | print s k ih =>
    intro w hp hf hw
    simp only [runProg]
    have hstep : Quiet Listener.Calm w (w.log (.output s)) :=
      ⟨⟨hw, rfl, [], by simp [World.log]⟩, [.output s], rfl, by simp [Event.Silent]⟩
    exact Fine_imp (fun s hs => Quiet_trans hstep hs) _ (ih _ hp hf hw)

theorem received_append (i : Nat) (xs ys : List (Event T)) :
    received i (xs ++ ys) = received i xs ++ received i ys := by
  induction xs with
  | nil => rfl
  | cons e xs ih =>
    cases e with
    | invoke d1 s n v =>
      by_cases h : s = i <;> simp [received, h, ih]
    | write v => simpa [received] using ih
    | read v => simpa [received] using ih
    | output s => simpa [received] using ih

theorem received_silent (i : Nat) (es : List (Event T)) (h : ∀ e ∈ es, Event.Silent e) :
    received i es = [] := by
  induction es with
  | nil => rfl
  | cons e es ih =>
    have he := h e (List.mem_cons_self e es)
    have ih1 := ih (fun x hx => h x (List.mem_cons_of_mem e hx))
    cases e with
    | invoke d1 s nm v => exact he.elim
    | write v => exact he.elim
    | read v => simpa [received] using ih1
    | output s => simpa [received] using ih1

theorem notify_noSet (setRec : T → World T → Outcome Unit (World T)) (d : Nat) (v : T)
    (ls : List (Listener T)) : ∀ (slot : Nat) (w : World T), (∀ l ∈ ls, l.NoSet) →
      w.cell.mu = false →
      (notify setRec d v slot ls w).Done (Kept Listener.NoSet w.cell.value w) := by
  induction ls with
  | nil => intro slot w _ hw; exact ⟨hw, rfl, [], by simp⟩
  | cons l ls ih =>
    intro slot w hls hw
    have hrun := runProg_noSet setRec (l.body v) (w.log (.invoke d slot l.name v))
      (hls l (List.mem_cons_self l ls) v) hw
    simp only [notify]
    cases hr : runProg setRec (l.body v) (w.log (.invoke d slot l.name v)) with
    | ok r w1 =>
      rw [hr] at hrun
      obtain ⟨⟨hm, hv, hx⟩, _⟩ := hrun
      have h2 := ih (slot + 1) w1 (fun x hx => hls x (List.mem_cons_of_mem l hx)) hm
      rw [hv] at h2
      exact Done_imp (fun s hs => Kept_after hx hs) _ h2
    | panic w1 => rw [hr] at hrun; exact hrun.1
    | deadlock w1 => rw [hr] at hrun; exact hrun
    | timeout w1 => rw [hr] at hrun; exact hrun

theorem notify_calm (setRec : T → World T → Outcome Unit (World T)) (d : Nat) (v : T)
    (ls : List (Listener T)) : ∀ (slot : Nat) (w : World T), (∀ l ∈ ls, l.Calm) →
      w.cell.mu = false →
      (notify setRec d v slot ls w).Fine (Kept Listener.Calm w.cell.value w) := by
  induction ls with
  | nil => intro slot w _ hw; exact ⟨hw, rfl, [], by simp⟩
  | cons l ls ih =>
    intro slot w hls hw
    have hl := hls l (List.mem_cons_self l ls)
    have hrun := runProg_calm setRec (l.body v) (w.log (.invoke d slot l.name v))
      (hl.1 v) (hl.2 v) hw
    simp only [notify]
    cases hr : runProg setRec (l.body v) (w.log (.invoke d slot l.name v)) with
    | ok r w1 =>
      rw [hr] at hrun
      obtain ⟨⟨hm, hv, hx⟩, _⟩ := hrun
      have h2 := ih (slot + 1) w1 (fun x hx => hls x (List.mem_cons_of_mem l hx)) hm
      rw [hv] at h2
      exact Fine_imp (fun s hs => Kept_after hx hs) _ h2
    | panic w1 => rw [hr] at hrun; exact hrun
    | deadlock w1 => rw [hr] at hrun; exact hrun
    | timeout w1 => rw [hr] at hrun; exact hrun

theorem notify_noSet_received (setRec : T → World T → Outcome Unit (World T)) (d : Nat) (v : T)
    (ls : List (Listener T)) : ∀ (slot : Nat) (w w1 : World T), (∀ l ∈ ls, l.NoSet) →
      w.cell.mu = false → notify setRec d v slot ls w = .ok () w1 →
      ∃ es, w1.trace = w.trace ++ es ∧
        ∀ i, received i es = if slot ≤ i ∧ i < slot + ls.length then [v] else [] := by
  induction ls with
  | nil =>
    intro slot w w1 _ _ h
    simp only [notify, Outcome.ok.injEq, true_and] at h
    subst h
    refine ⟨[], by simp, fun i => ?_⟩
    have : ¬ (slot ≤ i ∧ i < slot + ([] : List (Listener T)).length) := by
      simp only [List.length_nil]; omega
    simp [received, this]
  | cons l ls ih =>
    intro slot w w1 hls hw h
    have hrun := runProg_noSet setRec (l.body v) (w.log (.invoke d slot l.name v))
      (hls l (List.mem_cons_self l ls) v) hw
    simp only [notify] at h
    cases hr : runProg setRec (l.body v) (w.log (.invoke d slot l.name v)) with
    | ok r w2 =>
      rw [hr] at hrun h
      obtain ⟨⟨hm, _, _⟩, es1, he1, hs1⟩ := hrun
      obtain ⟨es2, he2, hr2⟩ :=
        ih (slot + 1) w2 w1 (fun x hx => hls x (List.mem_cons_of_mem l hx)) hm h
      refine ⟨.invoke d slot l.name v :: (es1 ++ es2), ?_, fun i => ?_⟩
      · rw [he2, he1]; simp [World.log]
      · have h1 := received_silent i es1 hs1
        have h2 := hr2 i
        simp only [received, received_append, h1, h2, List.nil_append, List.length_cons]
        by_cases hi : slot = i
        · subst hi
          have hn : ¬ (slot + 1 ≤ slot ∧ slot < slot + 1 + ls.length) := by omega
          have hy : slot ≤ slot ∧ slot < slot + (ls.length + 1) := by omega
          simp [hn, hy]
        · by_cases hb : slot + 1 ≤ i ∧ i < slot + 1 + ls.length
          · have hy : slot ≤ i ∧ i < slot + (ls.length + 1) := by omega
            simp [hi, hb, hy]
          · have hy : ¬ (slot ≤ i ∧ i < slot + (ls.length + 1)) := by omega
            simp [hi, hb, hy]
    | panic w2 => rw [hr] at h; simp at h
    | deadlock w2 => rw [hr] at h; simp at h
    | timeout w2 => rw [hr] at h; simp at h

/-! ## One `Set`, and a sequence of `Set`s -/

theorem Set_ok_calls (fuel d : Nat) (v : T) (w w1 : World T) (hw : w.cell.mu = false)
    (h : Set fuel d v w = .ok () w1) :
    directCalls d (newEvents w w1) = dueCalls v 0 w.cell.listeners := by
  cases fuel with
  | zero => simp [Set] at h
  | succ fuel =>
    rw [Set_free fuel d v w hw] at h
    obtain ⟨es, he, hc⟩ := notify_ok_calls (Set fuel (d + 1)) d v
      (fun v1 w2 h2 => Set_good fuel (d + 1) v1 w2 h2) w.cell.listeners 0 _ w1 rfl h
    have hn : newEvents w w1 = .write v :: es := by
      apply newEvents_eq
      rw [he]; simp
    rw [hn]
    simpa [directCalls] using hc

theorem Set_noSet (fuel d : Nat) (v : T) (w : World T) (hw : w.cell.mu = false)
    (hls : ∀ l ∈ w.cell.listeners, l.NoSet) :
    (Set (fuel + 1) d v w).Done (Kept Listener.NoSet v w) := by
  rw [Set_free fuel d v w hw]
  exact notify_noSet (Set fuel (d + 1)) d v w.cell.listeners 0
    ⟨⟨false, v, w.cell.listeners⟩, w.trace ++ [.write v]⟩ hls rfl

theorem Set_calm (fuel d : Nat) (v : T) (w : World T) (hw : w.cell.mu = false)
    (hls : ∀ l ∈ w.cell.listeners, l.Calm) :
    (Set (fuel + 1) d v w).Fine (Kept Listener.Calm v w) := by
  rw [Set_free fuel d v w hw]
  exact notify_calm (Set fuel (d + 1)) d v w.cell.listeners 0
    ⟨⟨false, v, w.cell.listeners⟩, w.trace ++ [.write v]⟩ hls rfl

theorem Set_noSet_received (fuel d : Nat) (v : T) (w w1 : World T) (hw : w.cell.mu = false)
    (hls : ∀ l ∈ w.cell.listeners, l.NoSet) (h : Set fuel d v w = .ok () w1) :
    ∃ es, w1.trace = w.trace ++ es ∧
      ∀ i, received i es = if i < w.cell.listeners.length then [v] else [] := by
  cases fuel with
  | zero => simp [Set] at h
  | succ fuel =>
    rw [Set_free fuel d v w hw] at h
    obtain ⟨es, he, hr⟩ := notify_noSet_received (Set fuel (d + 1)) d v w.cell.listeners 0
      ⟨⟨false, v, w.cell.listeners⟩, w.trace ++ [.write v]⟩ w1 hls rfl h
    refine ⟨.write v :: es, by rw [he]; simp, fun i => ?_⟩
    have := hr i
    simpa [received] using this

theorem Kept_all {P : Listener T → Prop} {v : T} {w w1 : World T} (h : Kept P v w w1)
    (hw : ∀ l ∈ w.cell.listeners, P l) : ∀ l ∈ w1.cell.listeners, P l := by
  obtain ⟨_, _, xs, hx, hp⟩ := h
  intro l hl
  rw [hx] at hl
  rcases List.mem_append.mp hl with hl | hl
  · exact hw l hl
  · exact hp l hl

theorem Kept_length_le {P : Listener T → Prop} {v : T} {w w1 : World T} (h : Kept P v w w1) :
    w.cell.listeners.length ≤ w1.cell.listeners.length := by
  obtain ⟨_, _, xs, hx, _⟩ := h
  rw [hx, List.length_append]
  omega

theorem setAll_noSet_ok (fuel : Nat) (vs : List T) : ∀ (w w1 : World T),
    w.cell.mu = false → (∀ l ∈ w.cell.listeners, l.NoSet) → setAll fuel vs w = .ok () w1 →
    Kept Listener.NoSet (lastOr w.cell.value vs) w w1 ∧
      ∃ es, w1.trace = w.trace ++ es ∧
        ∀ i, i < w.cell.listeners.length → received i es = vs := by
  induction vs with
  | nil =>
    intro w w1 hw _ h
    simp only [setAll, Outcome.ok.injEq, true_and] at h
    subst h
    exact ⟨⟨hw, rfl, [], by simp⟩, [], by simp, fun i _ => rfl⟩
  | cons v vs ih =>
    intro w w1 hw hls h
    simp only [setAll] at h
    cases hs : Set fuel 0 v w with
    | ok r w2 =>
      rw [hs] at h
      cases fuel with
      | zero => simp [Set] at hs
      | succ fuel =>
        have hk := Set_noSet fuel 0 v w hw hls
        rw [hs] at hk
        obtain ⟨es1, he1, hr1⟩ := Set_noSet_received (fuel + 1) 0 v w w2 hw hls hs
        obtain ⟨hk2, es2, he2, hr2⟩ := ih w2 w1 hk.1 (Kept_all hk hls) h
        rw [hk.2.1] at hk2
        refine ⟨Kept_after hk.2.2 hk2, es1 ++ es2, by rw [he2, he1, List.append_assoc], ?_⟩
        intro i hi
        have h1 := hr1 i
        rw [if_pos hi] at h1
        rw [received_append, h1, hr2 i (Nat.lt_of_lt_of_le hi (Kept_length_le hk))]
        rfl
    | panic w2 => rw [hs] at h; simp at h
    | deadlock w2 => rw [hs] at h; simp at h
    | timeout w2 => rw [hs] at h; simp at h

theorem setAll_calm (fuel : Nat) (vs : List T) : ∀ (w : World T),
    w.cell.mu = false → (∀ l ∈ w.cell.listeners, l.Calm) →
    ∃ w1, setAll (fuel + 1) vs w = .ok () w1 := by
  induction vs with
  | nil => intro w _ _; exact ⟨w, rfl⟩
  | cons v vs ih =>
    intro w hw hls
    have hk := Set_calm fuel 0 v w hw hls
    simp only [setAll]
    cases hs : Set (fuel + 1) 0 v w with
    | ok r w2 =>
      rw [hs] at hk
      exact ih w2 hk.1 (Kept_all hk hls)
    | panic w2 => rw [hs] at hk; exact hk.elim
    | deadlock w2 => rw [hs] at hk; exact hk.elim
    | timeout w2 => rw [hs] at hk; exact hk.elim

theorem lastOr_eq_getLast (x : T) (vs : List T) (hne : vs ≠ []) :
    lastOr x vs = vs.getLast hne := by
  induction vs generalizing x with
  | nil => exact (hne rfl).elim
  | cons v vs ih =>
    cases vs with
    | nil => rfl
    | cons u us =>
      have := ih v (by simp)
      simpa [lastOr, List.getLast_cons] using this

theorem subscribeAll_free (ls : List (Listener T)) : ∀ w : World T, w.cell.mu = false →
    subscribeAll ls w = .ok () ⟨⟨false, w.cell.value, w.cell.listeners ++ ls⟩, w.trace⟩ := by
  induction ls with
  | nil =>
    intro w hw
    obtain ⟨⟨mu, value, listeners⟩, trace⟩ := w
    simp only at hw
    subst hw
    simp [subscribeAll]
  | cons l ls ih =>
    intro w hw
    simp only [subscribeAll, Subscribe_free l w hw]
    rw [ih _ rfl]
    simp

/-! ## Splitting the loop, and registrations made by a body -/

theorem notify_append (setRec : T → World T → Outcome Unit (World T)) (d : Nat) (v : T)
    (xs ys : List (Listener T)) : ∀ (slot : Nat) (w : World T),
      notify setRec d v slot (xs ++ ys) w =
        match notify setRec d v slot xs w with
        | .ok _ w1 => notify setRec d v (slot + xs.length) ys w1
        | .panic w1 => .panic w1
        | .deadlock w1 => .deadlock w1
        | .timeout w1 => .timeout w1 := by
  induction xs with
  | nil => intro slot w; simp [notify]
  | cons x xs ih =>
    intro slot w
    simp only [List.cons_append, notify, List.length_cons]
    cases hr : runProg setRec (x.body v) (w.log (.invoke d slot x.name v)) with
    | ok r w1 =>
      have h2 := ih (slot + 1) w1
      have e : slot + 1 + xs.length = slot + (xs.length + 1) := by omega
      rw [e] at h2
      exact h2
    | panic w1 => rfl
    | deadlock w1 => rfl
    | timeout w1 => rfl

theorem runProg_registers (setRec : T → World T → Outcome Unit (World T)) (d : Nat)
    (hset : ∀ v w, w.cell.mu = false → (setRec v w).Holds (Good (d + 1) w))
    (n : Nat) (b : T → Prog T) (p : Prog T) (hreg : Prog.Registers n b p) :
    ∀ (w w1 : World T), w.cell.mu = false → runProg setRec p w = .ok () w1 →
      ∃ mid rest, w1.cell.listeners = w.cell.listeners ++ mid ++ ⟨n, b⟩ :: rest := by
  induction hreg with
  | here k =>
    intro w w1 hw h
    simp only [runProg, Subscribe_free _ w hw] at h
    have hg := runProg_good setRec d hset k
      ⟨⟨false, w.cell.value, w.cell.listeners ++ [⟨n, b⟩]⟩, w.trace⟩ rfl
    rw [h] at hg
    obtain ⟨⟨ls, hl⟩, _, _⟩ := hg
    exact ⟨[], ls, by rw [hl]; simp⟩
  | afterGet k _ ih =>
    intro w w1 hw h
    rw [runProg, Get_free w hw] at h
    exact ih w.cell.value ⟨w.cell, w.trace ++ [.read w.cell.value]⟩ w1 hw h
  | afterSet val k _ ih =>
    intro w w1 hw h
    have hg := hset val w hw
    simp only [runProg] at h
    cases hs : setRec val w with
    | ok r w2 =>
      rw [hs] at hg h
      obtain ⟨⟨xs, hx⟩, _, hm⟩ := hg
      obtain ⟨mid, rest, hr⟩ := ih w2 w1 hm h
      exact ⟨xs ++ mid, rest, by rw [hr, hx]; simp⟩
    | panic w2 => rw [hs] at h; simp at h
    | deadlock w2 => rw [hs] at h; simp at h
    | timeout w2 => rw [hs] at h; simp at h
  | afterSubscribe n1 b1 k _ ih =>
    intro w w1 hw h
    simp only [runProg, Subscribe_free _ w hw] at h
    obtain ⟨mid, rest, hr⟩ := ih _ w1 rfl h
    exact ⟨⟨n1, b1⟩ :: mid, rest, by rw [hr]; simp⟩
  | afterPrint s k _ ih =>
    intro w w1 hw h
    rw [runProg] at h
    obtain ⟨mid, rest, hr⟩ := ih (w.log (.output s)) w1 hw h
    exact ⟨mid, rest, by rw [hr]; rfl⟩

theorem dueCalls_slot (v : T) (ls : List (Listener T)) : ∀ (slot : Nat) (c : Nat × Nat × T),
    c ∈ dueCalls v slot ls → slot ≤ c.1 ∧ c.1 < slot + ls.length := by
  induction ls with
  | nil => intro slot c hc; simp [dueCalls] at hc
  | cons l ls ih =>
    intro slot c hc
    simp only [dueCalls, List.mem_cons] at hc
    simp only [List.length_cons]
    rcases hc with hc | hc
    · subst hc; simp
    · have := ih (slot + 1) c hc
      omega

/-- When the loop over `pre ++ l :: post` returns and the body of `l` registers
`⟨n, b⟩`, that registration lies behind everything registered before it. -/
theorem notify_registers (setRec : T → World T → Outcome Unit (World T)) (d : Nat) (v : T)
    (hset : ∀ v w, w.cell.mu = false → (setRec v w).Holds (Good (d + 1) w))
    (n : Nat) (b : T → Prog T) (pre post : List (Listener T)) (l : Listener T)
    (hreg : Prog.Registers n b (l.body v)) (w w1 : World T) (hw : w.cell.mu = false)
    (hlen : (pre ++ l :: post).length ≤ w.cell.listeners.length)
    (h : notify setRec d v 0 (pre ++ l :: post) w = .ok () w1) :
    ∃ mid rest, w1.cell.listeners = w.cell.listeners ++ mid ++ ⟨n, b⟩ :: rest := by
  rw [notify_append] at h
  have hlen0 : pre.length + (l :: post).length ≤ w.cell.listeners.length := by
    rw [List.length_append] at hlen; exact hlen
  have hlen1 : 0 + pre.length ≤ w.cell.listeners.length := by omega
  have hg1 := notify_good setRec d v hset pre 0 w hw hlen1
  cases hp : notify setRec d v 0 pre w with
  | ok r wa =>
    rw [hp] at hg1 h
    simp only [notify] at h
    obtain ⟨⟨xs, hx⟩, _, hma⟩ := hg1
    cases hr : runProg setRec (l.body v) (wa.log (.invoke d (0 + pre.length) l.name v)) with
    | ok r2 wb =>
      rw [hr] at h
      simp only at h
      obtain ⟨mid, rest, hb⟩ := runProg_registers setRec d hset n b (l.body v) hreg
        (wa.log (.invoke d (0 + pre.length) l.name v)) wb hma hr
      have hgb := runProg_good setRec d hset (l.body v)
        (wa.log (.invoke d (0 + pre.length) l.name v)) hma
      rw [hr] at hgb
      have hlen2 : 0 + pre.length + 1 + post.length ≤ wb.cell.listeners.length := by
        rw [hb]
        simp only [World.log, List.length_append, List.length_cons] at hlen0 ⊢
        rw [hx, List.length_append]
        omega
      have hg2 := notify_good setRec d v hset post (0 + pre.length + 1) wb hgb.2.2 hlen2
      rw [h] at hg2
      obtain ⟨⟨ys, hy⟩, _, _⟩ := hg2
      refine ⟨xs ++ mid, rest ++ ys, ?_⟩
      rw [hy, hb]
      simp only [World.log]
      rw [hx]
      simp
    | panic wb => rw [hr] at h; simp at h
    | deadlock wb => rw [hr] at h; simp at h
    | timeout wb => rw [hr] at h; simp at h
  | panic wa => rw [hp] at h; simp at h
  | deadlock wa => rw [hp] at h; simp at h
  | timeout wa => rw [hp] at h; simp at h

theorem Set_registers (fuel d : Nat) (v : T) (n : Nat) (b : T → Prog T)
    (pre post : List (Listener T)) (l : Listener T) (hreg : Prog.Registers n b (l.body v))
    (w w1 : World T) (hw : w.cell.mu = false) (hsplit : w.cell.listeners = pre ++ l :: post)
    (h : Set fuel d v w = .ok () w1) :
    ∃ mid rest, w1.cell.listeners = w.cell.listeners ++ mid ++ ⟨n, b⟩ :: rest := by
  cases fuel with
  | zero => simp [Set] at h
  | succ fuel =>
    rw [Set_free fuel d v w hw, hsplit] at h
    have := notify_registers (Set fuel (d + 1)) d v
      (fun v1 w2 h2 => Set_good fuel (d + 1) v1 w2 h2) n b pre post l hreg
      ⟨⟨false, v, pre ++ l :: post⟩, w.trace ++ [.write v]⟩ w1 rfl (Nat.le_refl _) h
    rw [hsplit]
    exact this

/-! ## Slots and names of the calls -/

theorem received_within (d n i : Nat) (hi : n ≤ i) (es : List (Event T))
    (h : ∀ e ∈ es, Event.Within d n e) : received i es = [] := by
  induction es with
  | nil => rfl
  | cons e es ih =>
    have he := h e (List.mem_cons_self e es)
    have ih1 := ih (fun x hx => h x (List.mem_cons_of_mem e hx))
    cases e with
    | invoke d1 s nm v =>
      simp only [Event.Within] at he
      have hne : ¬ s = i := by omega
      simp [received, hne, ih1]
    | write v => simpa [received] using ih1
    | read v => simpa [received] using ih1
    | output s => simpa [received] using ih1

theorem dueCalls_countP_name (v : T) (n : Nat) (ls : List (Listener T)) : ∀ slot : Nat,
    (dueCalls v slot ls).countP (fun c => c.2.1 = n) = ls.countP (fun x => x.name = n) := by
  induction ls with
  | nil => intro slot; rfl
  | cons l ls ih =>
    intro slot
    simp only [dueCalls, List.countP_cons, ih (slot + 1)]

theorem Set_ok_free (fuel d : Nat) (v : T) (w w1 : World T) (hw : w.cell.mu = false)
    (h : Set fuel d v w = .ok () w1) : Good d w w1 := by
  have hg := Set_good fuel d v w hw
  rw [h] at hg
  exact hg

theorem Set_calm_ok (fuel d : Nat) (v : T) (w : World T) (hw : w.cell.mu = false)
    (hls : ∀ l ∈ w.cell.listeners, l.Calm) :
    ∃ w1, Set (fuel + 1) d v w = .ok () w1 ∧ w1.cell.mu = false ∧
      ∀ l ∈ w1.cell.listeners, l.Calm := by
  have hk := Set_calm fuel d v w hw hls
  cases hs : Set (fuel + 1) d v w with
  | ok r w1 =>
    rw [hs] at hk
    exact ⟨w1, rfl, hk.1, Kept_all hk hls⟩
  | panic w1 => rw [hs] at hk; exact hk.elim
  | deadlock w1 => rw [hs] at hk; exact hk.elim
  | timeout w1 => rw [hs] at hk; exact hk.elim

/-! ## Properties kept by every step -/

theorem runProg_inv (P : World T → Prop) (hP : StepClosed P)
    (setRec : T → World T → Outcome Unit (World T))
    (hset : ∀ v w, w.cell.mu = false → P w →
      (setRec v w).Holds (fun w1 => P w1 ∧ w1.cell.mu = false))
    (p : Prog T) : ∀ w : World T, w.cell.mu = false → P w →
      (runProg setRec p w).Holds (fun w1 => P w1 ∧ w1.cell.mu = false) := by
  induction p with
  | ret => intro w hw hp; exact ⟨hp, hw⟩
  | fail => intro w hw hp; exact ⟨hp, hw⟩
  | get k ih =>
    intro w hw hp
    simp only [runProg, Get_free w hw]
    exact ih _ _ hw (hP.read w hw hp)
  | set val k ih =>
    intro w hw hp
    have h1 := hset val w hw hp
    simp only [runProg]
    cases hs : setRec val w with
    | ok r w1 =>
      rw [hs] at h1
      exact ih w1 h1.2 h1.1
    | panic w1 => rw [hs] at h1; exact h1
    | deadlock w1 => rw [hs] at h1; exact h1
    | timeout w1 => rw [hs] at h1; exact h1
  | subscribe name body k _ ih =>
    intro w hw hp
    simp only [runProg, Subscribe_free _ w hw]
    exact ih _ rfl (hP.sub ⟨name, body⟩ w hw hp)
  | print s k ih =>
    intro w hw hp
    simp only [runProg]
    exact ih _ hw (hP.out s w hp)

theorem notify_inv (P : World T → Prop) (hP : StepClosed P)
    (setRec : T → World T → Outcome Unit (World T))
    (hset : ∀ v w, w.cell.mu = false → P w →
      (setRec v w).Holds (fun w1 => P w1 ∧ w1.cell.mu = false))
    (d : Nat) (v : T) (ls : List (Listener T)) : ∀ (slot : Nat) (w : World T),
      w.cell.mu = false → P w →
      (notify setRec d v slot ls w).Holds (fun w1 => P w1 ∧ w1.cell.mu = false) := by
  induction ls with
  | nil => intro slot w hw hp; exact ⟨hp, hw⟩
  | cons l ls ih =>
    intro slot w hw hp
    have hrun := runProg_inv P hP setRec hset (l.body v) (w.log (.invoke d slot l.name v)) hw
      (hP.call d slot l.name v w hp)
    simp only [notify]
    cases hr : runProg setRec (l.body v) (w.log (.invoke d slot l.name v)) with
    | ok r w1 =>
      rw [hr] at hrun
      exact ih (slot + 1) w1 hrun.2 hrun.1
    | panic w1 => rw [hr] at hrun; exact hrun
    | deadlock w1 => rw [hr] at hrun; exact hrun
    | timeout w1 => rw [hr] at hrun; exact hrun

theorem Set_inv (P : World T → Prop) (hP : StepClosed P) (fuel : Nat) :
    ∀ (d : Nat) (v : T) (w : World T), w.cell.mu = false → P w →
      (Set fuel d v w).Holds (fun w1 => P w1 ∧ w1.cell.mu = false) := by
  induction fuel with
  | zero => intro d v w hw hp; exact ⟨hp, hw⟩
  | succ fuel ih =>
    intro d v w hw hp
    rw [Set_free fuel d v w hw]
    exact notify_inv P hP (Set fuel (d + 1)) (fun v1 w1 h1 hp1 => ih (d + 1) v1 w1 h1 hp1)
      d v w.cell.listeners 0 _ rfl (hP.store v w hw hp)

theorem runOps_inv (P : World T → Prop) (hP : StepClosed P) (fuel : Nat)
    (ops : List (Op T)) : ∀ w : World T, w.cell.mu = false → P w →
      (runOps fuel ops w).Holds (fun w1 => P w1 ∧ w1.cell.mu = false) := by
  induction ops with
  | nil => intro w hw hp; exact ⟨hp, hw⟩
  | cons op ops ih =>
    intro w hw hp
    cases op with
    | get =>
      simp only [runOps, Get_free w hw]
      exact ih _ hw (hP.read w hw hp)
    | set val =>
      have h1 := Set_inv P hP fuel 0 val w hw hp
      simp only [runOps]
      cases hs : Set fuel 0 val w with
      | ok r w1 =>
        rw [hs] at h1
        exact ih w1 h1.2 h1.1
      | panic w1 => rw [hs] at h1; exact h1
      | deadlock w1 => rw [hs] at h1; exact h1
      | timeout w1 => rw [hs] at h1; exact h1
    | subscribe l =>
      simp only [runOps, Subscribe_free l w hw]
      exact ih _ rfl (hP.sub l w hw hp)

theorem Provenance_snoc (initial : T) (tr : List (Event T)) (e : Event T)
    (h : Provenance initial tr)
    (he : ∀ v, e = .read v → v = initial ∨ Event.write v ∈ tr) :
    Provenance initial (tr ++ [e]) := by
  intro pre v post heq
  rcases List.append_eq_append_iff.mp heq with ⟨a, ha, hb⟩ | ⟨c, hc, hd⟩
  · cases a with
    | nil =>
      simp only [List.nil_append, List.cons.injEq] at hb
      simp only [List.append_nil] at ha
      subst ha
      exact he v hb.1
    | cons x a =>
      have := congrArg List.length hb
      simp at this
  · cases c with
    | nil =>
      simp only [List.nil_append, List.cons.injEq] at hd
      simp only [List.append_nil] at hc
      subst hc
      exact he v hd.1.symm
    | cons x c =>
      simp only [List.cons_append, List.cons.injEq] at hd
      obtain ⟨hx, _⟩ := hd
      subst hx
      exact h pre v c hc

theorem Sourced_stepClosed (initial : T) : StepClosed (Sourced initial) where
  read := by
    intro w _ hp
    refine ⟨?_, Provenance_snoc initial w.trace _ hp.2 ?_⟩
    · rcases hp.1 with h | h
      · exact Or.inl h
      · exact Or.inr (List.mem_append_left _ h)
    · intro v hv
      simp only [Event.read.injEq] at hv
      subst hv
      exact hp.1
  sub := by
    intro l w _ hp
    exact hp
  out := by
    intro s w hp
    refine ⟨?_, Provenance_snoc initial w.trace _ hp.2 (by intro v hv; simp at hv)⟩
    rcases hp.1 with h | h
    · exact Or.inl h
    · exact Or.inr (List.mem_append_left _ h)
  call := by
    intro d slot n v w hp
    refine ⟨?_, Provenance_snoc initial w.trace _ hp.2 (by intro v hv; simp at hv)⟩
    rcases hp.1 with h | h
    · exact Or.inl h
    · exact Or.inr (List.mem_append_left _ h)
  store := by
    intro v w _ hp
    refine ⟨Or.inr (by simp), Provenance_snoc initial w.trace _ hp.2 (by intro v hv; simp at hv)⟩

theorem Sourced_fresh (initial : T) : Sourced initial (World.fresh initial) := by
  refine ⟨Or.inl rfl, ?_⟩
  intro pre v post h
  simp [World.fresh] at h

/-! ## More fuel does not change a run that was not cut off -/

theorem runProg_fuel (f g : T → World T → Outcome Unit (World T))
    (hfg : ∀ v w, (f v w).isTimeout = false → g v w = f v w) (p : Prog T) :
    ∀ w : World T, (runProg f p w).isTimeout = false → runProg g p w = runProg f p w := by
  induction p with
  | ret => intro w _; rfl
  | fail => intro w _; rfl
  | get k ih =>
    intro w h
    rw [runProg] at h ⊢
    rw [runProg]
    cases hg : Get w with
    | ok v w1 => rw [hg] at h; exact ih v w1 h
    | panic w1 => rfl
    | deadlock w1 => rfl
    | timeout w1 => rfl
  | set val k ih =>
    intro w h
    rw [runProg] at h ⊢
    rw [runProg]
    cases hs : f val w with
    | ok r w1 =>
      rw [hs] at h
      rw [hfg val w (by rw [hs]; rfl), hs]
      exact ih w1 h
    | panic w1 => rw [hfg val w (by rw [hs]; rfl), hs]
    | deadlock w1 => rw [hfg val w (by rw [hs]; rfl), hs]
    | timeout w1 => rw [hs] at h; simp [Outcome.isTimeout] at h
  | subscribe name body k _ ih =>
    intro w h
    rw [runProg] at h ⊢
    rw [runProg]
    cases hs : Subscribe ⟨name, body⟩ w with
    | ok r w1 => rw [hs] at h; exact ih w1 h
    | panic w1 => rfl
    | deadlock w1 => rfl
    | timeout w1 => rfl
  | print s k ih =>
    intro w h
    rw [runProg] at h ⊢
    rw [runProg]
    exact ih _ h

theorem notify_fuel (f g : T → World T → Outcome Unit (World T))
    (hfg : ∀ v w, (f v w).isTimeout = false → g v w = f v w) (d : Nat) (v : T)
    (ls : List (Listener T)) : ∀ (slot : Nat) (w : World T),
      (notify f d v slot ls w).isTimeout = false →
      notify g d v slot ls w = notify f d v slot ls w := by
  induction ls with
  | nil => intro slot w _; rfl
  | cons l ls ih =>
    intro slot w h
    simp only [notify] at h ⊢
    cases hr : runProg f (l.body v) (w.log (.invoke d slot l.name v)) with
    | ok r w1 =>
      rw [hr] at h
      rw [runProg_fuel f g hfg (l.body v) _ (by rw [hr]; rfl), hr]
      exact ih (slot + 1) w1 h
    | panic w1 => rw [runProg_fuel f g hfg (l.body v) _ (by rw [hr]; rfl), hr]
    | deadlock w1 => rw [runProg_fuel f g hfg (l.body v) _ (by rw [hr]; rfl), hr]
    | timeout w1 => rw [hr] at h; simp [Outcome.isTimeout] at h

theorem Set_fuel_succ (fuel : Nat) : ∀ (d : Nat) (v : T) (w : World T),
    (Set fuel d v w).isTimeout = false → Set (fuel + 1) d v w = Set fuel d v w := by
  induction fuel with
  | zero => intro d v w h; simp [Set, Outcome.isTimeout] at h
  | succ fuel ih =>
    intro d v w h
    cases hm : w.cell.mu with
    | true => simp [Set, hm]
    | false =>
      rw [Set_free (fuel + 1) d v w hm, Set_free fuel d v w hm]
      rw [Set_free fuel d v w hm] at h
      exact notify_fuel (Set fuel (d + 1)) (Set (fuel + 1) (d + 1))
        (fun v1 w1 h1 => ih (d + 1) v1 w1 h1) d v w.cell.listeners 0 _ h

theorem Set_fuel_add (fuel extra d : Nat) (v : T) (w : World T)
    (h : (Set fuel d v w).isTimeout = false) : Set (fuel + extra) d v w = Set fuel d v w := by
  induction extra with
  | zero => rfl
  | succ extra ih =>
    have h1 : (Set (fuel + extra) d v w).isTimeout = false := by rw [ih]; exact h
    rw [← ih]
    exact Set_fuel_succ (fuel + extra) d v w h1

/-! ## The claims -/

/-- C1: on a freshly constructed cell on which the listeners `ls` were subscribed
before the first `Set`, none of them calling `Set` on the cell, the calls
`Set(v1)`, ..., `Set(vn)` make every one of these registrations receive exactly
`[v1, ..., vn]`, in that order, and leave `vn` stored; when no listener panics,
the calls do return (any fuel of at least one suffices). -/
theorem C1_listener_receives_set_sequence (initial : T) (ls : List (Listener T))
    (vs : List T) (fuel : Nat) (hls : ∀ l ∈ ls, l.NoSet) :
    ∃ w0, subscribeAll ls (World.fresh initial) = .ok () w0 ∧
      (∀ w1, setAll fuel vs w0 = .ok () w1 →
        (∀ i, i < ls.length → received i w1.trace = vs) ∧
          w1.cell.value = lastOr initial vs) ∧
      ((∀ l ∈ ls, l.NoFail) → ∃ w1, setAll (fuel + 1) vs w0 = .ok () w1) := by
  refine ⟨⟨⟨false, initial, ls⟩, []⟩, ?_, ?_, ?_⟩
  · simpa [World.fresh, NewReactive] using
      subscribeAll_free ls (World.fresh initial) rfl
  · intro w1 h
    obtain ⟨hk, es, he, hr⟩ := setAll_noSet_ok fuel vs ⟨⟨false, initial, ls⟩, []⟩ w1 rfl hls h
    refine ⟨fun i hi => ?_, hk.2.1⟩
    rw [he]
    simpa using hr i hi
  · intro hf
    exact setAll_calm fuel vs ⟨⟨false, initial, ls⟩, []⟩ rfl (fun l hl => ⟨hls l hl, hf l hl⟩)

/-- Witness of C1: initial value `0`, one recording listener, `Set(1)`, `Set(2)`,
`Set(3)`; the listener records `[1, 2, 3]` and `Get()` then returns `3`. -/
theorem C1_listener_receives_set_sequence_witness :
    (∀ l ∈ [recorder 7], Listener.NoSet l) ∧
    (∃ w0, subscribeAll [recorder 7] (World.fresh 0) = .ok () w0 ∧
      (∀ w1, setAll 1 [1, 2, 3] w0 = .ok () w1 →
        (∀ i, i < [recorder 7].length → received i w1.trace = [1, 2, 3]) ∧
          w1.cell.value = lastOr 0 [1, 2, 3]) ∧
      ((∀ l ∈ [recorder 7], l.NoFail) → ∃ w1, setAll (1 + 1) [1, 2, 3] w0 = .ok () w1)) ∧
    setAll 1 [1, 2, 3] ⟨⟨false, 0, [recorder 7]⟩, []⟩ =
      .ok () ⟨⟨false, 3, [recorder 7]⟩,
        [.write 1, .invoke 0 0 7 1, .write 2, .invoke 0 0 7 2, .write 3, .invoke 0 0 7 3]⟩ ∧
    Get ⟨⟨false, 3, [recorder 7]⟩,
        [.write 1, .invoke 0 0 7 1, .write 2, .invoke 0 0 7 2, .write 3, .invoke 0 0 7 3]⟩ =
      .ok 3 ⟨⟨false, 3, [recorder 7]⟩,
        [.write 1, .invoke 0 0 7 1, .write 2, .invoke 0 0 7 2, .write 3, .invoke 0 0 7 3,
          .read 3]⟩ :=
  ⟨by simp [Listener.NoSet, recorder, Prog.NoSet],
    C1_listener_receives_set_sequence 0 [recorder 7] [1, 2, 3] 1
      (by simp [Listener.NoSet, recorder, Prog.NoSet]),
    rfl, rfl⟩

/-- C2: from any cell state with a free mutex whose listeners do not call `Set`
on the cell, after `Set(v1)`, ..., `Set(vn)` (n ≥ 1) issued in order, `Get()`
returns `vn`; when no listener panics, the calls do return. -/
theorem C2_read_after_write (w : World T) (vs : List T) (fuel : Nat) (hne : vs ≠ [])
    (hw : w.cell.mu = false) (hls : ∀ l ∈ w.cell.listeners, l.NoSet) :
    (∀ w1, setAll fuel vs w = .ok () w1 →
      Get w1 = .ok (vs.getLast hne) ⟨w1.cell, w1.trace ++ [.read (vs.getLast hne)]⟩) ∧
    ((∀ l ∈ w.cell.listeners, l.NoFail) → ∃ w1, setAll (fuel + 1) vs w = .ok () w1) := by
  refine ⟨fun w1 h => ?_, fun hf => ?_⟩
  · obtain ⟨hk, _⟩ := setAll_noSet_ok fuel vs w w1 hw hls h
    rw [Get_free w1 hk.1, hk.2.1, lastOr_eq_getLast w.cell.value vs hne]
  · exact setAll_calm fuel vs w hw (fun l hl => ⟨hls l hl, hf l hl⟩)

/-- Witness of C2: a cell holding `5` with two recording listeners, then `Set(8)`,
`Set(2)`. -/
theorem C2_read_after_write_witness :
    (⟨⟨false, 5, [recorder 1, recorder 2]⟩, []⟩ : World Nat).cell.mu = false ∧
    (∀ l ∈ (⟨⟨false, 5, [recorder 1, recorder 2]⟩, []⟩ : World Nat).cell.listeners,
      Listener.NoSet l) ∧
    ((∀ w1, setAll 1 [8, 2] ⟨⟨false, 5, [recorder 1, recorder 2]⟩, []⟩ = .ok () w1 →
      Get w1 = .ok ([8, 2].getLast (by simp))
        ⟨w1.cell, w1.trace ++ [.read ([8, 2].getLast (by simp))]⟩) ∧
    ((∀ l ∈ (⟨⟨false, 5, [recorder 1, recorder 2]⟩, []⟩ : World Nat).cell.listeners,
        Listener.NoFail l) →
      ∃ w1, setAll (1 + 1) [8, 2] ⟨⟨false, 5, [recorder 1, recorder 2]⟩, []⟩ = .ok () w1)) :=
  ⟨rfl, by simp [Listener.NoSet, recorder, Prog.NoSet],
    C2_read_after_write ⟨⟨false, 5, [recorder 1, recorder 2]⟩, []⟩ [8, 2] 1 (by simp) rfl
      (by simp [Listener.NoSet, recorder, Prog.NoSet])⟩

/-- C3: from any cell state with a free mutex, a call `Set(v)` that returns has made,
in its own loop, exactly the calls `L1(v)`, ..., `Lk(v)` for the listener sequence
`L1, ..., Lk` it found: every registration once, in registration order, with `v`;
when the listeners neither call `Set` nor panic, the call does return. -/
theorem C3_registration_order_fan_out (fuel d : Nat) (v : T) (w : World T)
    (hw : w.cell.mu = false) :
    (∀ w1, Set fuel d v w = .ok () w1 →
      directCalls d (newEvents w w1) = dueCalls v 0 w.cell.listeners) ∧
    ((∀ l ∈ w.cell.listeners, l.Calm) → ∃ w1, Set (fuel + 1) d v w = .ok () w1) := by
  refine ⟨fun w1 h => Set_ok_calls fuel d v w w1 hw h, fun hc => ?_⟩
  have hk := Set_calm fuel d v w hw hc
  cases hs : Set (fuel + 1) d v w with
  | ok r w1 => exact ⟨w1, rfl⟩
  | panic w1 => rw [hs] at hk; exact hk.elim
  | deadlock w1 => rw [hs] at hk; exact hk.elim
  | timeout w1 => rw [hs] at hk; exact hk.elim

/-- Witness of C3: three recording listeners subscribed in the order 1, 2, 3. -/
theorem C3_registration_order_fan_out_witness :
    (⟨⟨false, 0, [recorder 1, recorder 2, recorder 3]⟩, []⟩ : World Nat).cell.mu = false ∧
    ((∀ w1, Set 1 0 9 ⟨⟨false, 0, [recorder 1, recorder 2, recorder 3]⟩, []⟩ = .ok () w1 →
      directCalls 0 (newEvents ⟨⟨false, 0, [recorder 1, recorder 2, recorder 3]⟩, []⟩ w1) =
        dueCalls 9 0 [recorder 1, recorder 2, recorder 3]) ∧
    ((∀ l ∈ [recorder 1, recorder 2, recorder 3], Listener.Calm l) →
      ∃ w1, Set (1 + 1) 0 9 ⟨⟨false, 0, [recorder 1, recorder 2, recorder 3]⟩, []⟩ =
        .ok () w1)) ∧
    dueCalls 9 0 [recorder 1, recorder 2, recorder 3] = [(0, 1, 9), (1, 2, 9), (2, 3, 9)] :=
  ⟨rfl, C3_registration_order_fan_out 1 0 9
      ⟨⟨false, 0, [recorder 1, recorder 2, recorder 3]⟩, []⟩ rfl, rfl⟩

/-- C4: when a listener `l` of the snapshot, invoked for `Set(v)`, calls
`Subscribe(⟨n, b⟩)` on the cell, the calls made by that `Set(v)` are those of
the snapshot only, so none goes to the new registration; the new registration
lies behind everything registered before it, and the next `Set(v2)` calls it
with `v2` after all those earlier registrations.  With listeners that neither
call `Set` nor panic both `Set` calls return. -/
theorem C4_self_registration_snapshot_isolation (fuel d : Nat) (v : T) (w : World T)
    (pre post : List (Listener T)) (l : Listener T) (n : Nat) (b : T → Prog T)
    (hw : w.cell.mu = false) (hsplit : w.cell.listeners = pre ++ l :: post)
    (hreg : Prog.Registers n b (l.body v)) :
    (∀ w1, Set fuel d v w = .ok () w1 →
      directCalls d (newEvents w w1) = dueCalls v 0 w.cell.listeners ∧
      ∃ mid rest, w1.cell.listeners = w.cell.listeners ++ mid ++ ⟨n, b⟩ :: rest ∧
        (∀ c ∈ directCalls d (newEvents w w1), c.1 ≠ (w.cell.listeners ++ mid).length) ∧
        ∀ fuel2 v2 w2, Set fuel2 d v2 w1 = .ok () w2 →
          directCalls d (newEvents w1 w2) =
            dueCalls v2 0 (w.cell.listeners ++ mid) ++
              ((w.cell.listeners ++ mid).length, n, v2) ::
                dueCalls v2 ((w.cell.listeners ++ mid).length + 1) rest) ∧
    ((∀ x ∈ w.cell.listeners, x.Calm) → ∀ v2, ∃ w1 w2,
      Set (fuel + 1) d v w = .ok () w1 ∧ Set (fuel + 1) d v2 w1 = .ok () w2) := by
  refine ⟨fun w1 h => ?_, fun hc v2 => ?_⟩
  · have hcalls := Set_ok_calls fuel d v w w1 hw h
    have hg := Set_good fuel d v w hw
    rw [h] at hg
    obtain ⟨mid, rest, hl⟩ := Set_registers fuel d v n b pre post l hreg w w1 hw hsplit h
    refine ⟨hcalls, mid, rest, hl, ?_, ?_⟩
    · intro c hc
      rw [hcalls] at hc
      have := dueCalls_slot v w.cell.listeners 0 c hc
      rw [List.length_append]
      omega
    · intro fuel2 v2 w2 h2
      rw [Set_ok_calls fuel2 d v2 w1 w2 hg.2.2 h2, hl, dueCalls_append]
      simp [dueCalls]
  · have hk := Set_calm fuel d v w hw hc
    cases hs : Set (fuel + 1) d v w with
    | ok r w1 =>
      rw [hs] at hk
      have hk2 := Set_calm fuel d v2 w1 hk.1 (Kept_all hk hc)
      cases hs2 : Set (fuel + 1) d v2 w1 with
      | ok r2 w2 => exact ⟨w1, w2, rfl, hs2⟩
      | panic w2 => rw [hs2] at hk2; exact hk2.elim
      | deadlock w2 => rw [hs2] at hk2; exact hk2.elim
      | timeout w2 => rw [hs2] at hk2; exact hk2.elim
    | panic w1 => rw [hs] at hk; exact hk.elim
    | deadlock w1 => rw [hs] at hk; exact hk.elim
    | timeout w1 => rw [hs] at hk; exact hk.elim

/-- Witness of C4: listener 1 subscribes the recording listener 2 whenever it is
invoked; `Set(5)` calls listener 1 only, the following `Set(6)` calls listener 1
and then listener 2. -/
theorem C4_self_registration_snapshot_isolation_witness :
    (⟨⟨false, 0, [registrar 1 (recorder 2)]⟩, []⟩ : World Nat).cell.mu = false ∧
    (⟨⟨false, 0, [registrar 1 (recorder 2)]⟩, []⟩ : World Nat).cell.listeners =
      [] ++ registrar 1 (recorder 2) :: [] ∧
    Prog.Registers 2 (recorder 2).body ((registrar 1 (recorder 2)).body 5) ∧
    ((∀ w1, Set 1 0 5 ⟨⟨false, 0, [registrar 1 (recorder 2)]⟩, []⟩ = .ok () w1 →
      directCalls 0 (newEvents ⟨⟨false, 0, [registrar 1 (recorder 2)]⟩, []⟩ w1) =
        dueCalls 5 0 [registrar 1 (recorder 2)] ∧
      ∃ mid rest, w1.cell.listeners =
          [registrar 1 (recorder 2)] ++ mid ++ ⟨2, (recorder 2).body⟩ :: rest ∧
        (∀ c ∈ directCalls 0 (newEvents ⟨⟨false, 0, [registrar 1 (recorder 2)]⟩, []⟩ w1),
          c.1 ≠ ([registrar 1 (recorder 2)] ++ mid).length) ∧
        ∀ fuel2 v2 w2, Set fuel2 0 v2 w1 = .ok () w2 →
          directCalls 0 (newEvents w1 w2) =
            dueCalls v2 0 ([registrar 1 (recorder 2)] ++ mid) ++
              (([registrar 1 (recorder 2)] ++ mid).length, 2, v2) ::
                dueCalls v2 (([registrar 1 (recorder 2)] ++ mid).length + 1) rest) ∧
    ((∀ x ∈ [registrar 1 (recorder 2)], Listener.Calm x) → ∀ v2, ∃ w1 w2,
      Set (1 + 1) 0 5 ⟨⟨false, 0, [registrar 1 (recorder 2)]⟩, []⟩ = .ok () w1 ∧
        Set (1 + 1) 0 v2 w1 = .ok () w2)) ∧
    Set 1 0 5 ⟨⟨false, 0, [registrar 1 (recorder 2)]⟩, []⟩ =
      .ok () ⟨⟨false, 5, [registrar 1 (recorder 2), recorder 2]⟩,
        [.write 5, .invoke 0 0 1 5]⟩ ∧
    Set 1 0 6 ⟨⟨false, 5, [registrar 1 (recorder 2), recorder 2]⟩,
        [.write 5, .invoke 0 0 1 5]⟩ =
      .ok () ⟨⟨false, 6, [registrar 1 (recorder 2), recorder 2, recorder 2]⟩,
        [.write 5, .invoke 0 0 1 5, .write 6, .invoke 0 0 1 6, .invoke 0 1 2 6]⟩ :=
  ⟨rfl, rfl, Prog.Registers.here _,
    C4_self_registration_snapshot_isolation 1 0 5
      ⟨⟨false, 0, [registrar 1 (recorder 2)]⟩, []⟩ [] [] (registrar 1 (recorder 2)) 2
      (recorder 2).body rfl rfl (Prog.Registers.here _),
    rfl, rfl⟩

/-- C5: a listener `l` subscribed after `Set(v1)` has returned and before
`Set(v2)` is called receives nothing up to its subscription (in particular not
the notification of `Set(v1)`), and the loop of `Set(v2)` calls it exactly once,
with `v2`, after the earlier registrations; when no listener calls `Set` on the
cell, `v2` is all it receives during `Set(v2)`.  With listeners that neither call
`Set` nor panic, the three calls return. -/
theorem C5_late_subscription (fuel d : Nat) (v1 v2 : T) (w : World T) (l : Listener T)
    (hw : w.cell.mu = false) :
    (∀ w1 w2 w3, Set fuel d v1 w = .ok () w1 → Subscribe l w1 = .ok () w2 →
      Set fuel d v2 w2 = .ok () w3 →
        received w1.cell.listeners.length (newEvents w w2) = [] ∧
        directCalls d (newEvents w2 w3) =
          dueCalls v2 0 w1.cell.listeners ++ [(w1.cell.listeners.length, l.name, v2)] ∧
        ((∀ x ∈ w.cell.listeners, x.NoSet) → l.NoSet →
          received w1.cell.listeners.length (newEvents w2 w3) = [v2])) ∧
    ((∀ x ∈ w.cell.listeners, x.Calm) → l.Calm → ∃ w1 w2 w3,
      Set (fuel + 1) d v1 w = .ok () w1 ∧ Subscribe l w1 = .ok () w2 ∧
        Set (fuel + 1) d v2 w2 = .ok () w3) := by
  refine ⟨fun w1 w2 w3 h1 h2 h3 => ?_, fun hc hl => ?_⟩
  · have hg := Set_ok_free fuel d v1 w w1 hw h1
    rw [Subscribe_free l w1 hg.2.2] at h2
    simp only [Outcome.ok.injEq, true_and] at h2
    subst h2
    refine ⟨?_, ?_, ?_⟩
    · obtain ⟨_, ⟨es, he, hin⟩, _⟩ := hg
      have hn : newEvents w ⟨⟨false, w1.cell.value, w1.cell.listeners ++ [l]⟩, w1.trace⟩ = es :=
        newEvents_eq he
      rw [hn]
      exact received_within d _ _ (Nat.le_refl _) es hin
    · rw [Set_ok_calls fuel d v2 _ w3 rfl h3, dueCalls_append]
      simp [dueCalls]
    · intro hns hl
      cases fuel with
      | zero => simp [Set] at h1
      | succ fuel =>
        have hk := Set_noSet fuel d v1 w hw hns
        rw [h1] at hk
        have hall : ∀ x ∈ w1.cell.listeners ++ [l], x.NoSet := by
          intro x hx
          rcases List.mem_append.mp hx with hx | hx
          · exact Kept_all hk hns x hx
          · simp only [List.mem_singleton] at hx
            subst hx
            exact hl
        obtain ⟨es, he, hr⟩ := Set_noSet_received (fuel + 1) d v2
          ⟨⟨false, w1.cell.value, w1.cell.listeners ++ [l]⟩, w1.trace⟩ w3 rfl hall h3
        rw [newEvents_eq he, hr]
        simp
  · obtain ⟨w1, h1, hm1, hc1⟩ := Set_calm_ok fuel d v1 w hw hc
    have hall : ∀ x ∈ w1.cell.listeners ++ [l], x.Calm := by
      intro x hx
      rcases List.mem_append.mp hx with hx | hx
      · exact hc1 x hx
      · simp only [List.mem_singleton] at hx
        subst hx
        exact hl
    obtain ⟨w3, h3, _, _⟩ := Set_calm_ok fuel d v2
      ⟨⟨false, w1.cell.value, w1.cell.listeners ++ [l]⟩, w1.trace⟩ rfl hall
    exact ⟨w1, _, w3, h1, Subscribe_free l w1 hm1, h3⟩

/-- Witness of C5: recording listener 1 is registered, `Set(10)`, then recording
listener 2 is subscribed, then `Set(20)`: listener 2 receives `20` only. -/
theorem C5_late_subscription_witness :
    (⟨⟨false, 0, [recorder 1]⟩, []⟩ : World Nat).cell.mu = false ∧
    ((∀ w1 w2 w3, Set 1 0 10 ⟨⟨false, 0, [recorder 1]⟩, []⟩ = .ok () w1 →
      Subscribe (recorder 2) w1 = .ok () w2 → Set 1 0 20 w2 = .ok () w3 →
        received w1.cell.listeners.length (newEvents ⟨⟨false, 0, [recorder 1]⟩, []⟩ w2) = [] ∧
        directCalls 0 (newEvents w2 w3) =
          dueCalls 20 0 w1.cell.listeners ++ [(w1.cell.listeners.length, (recorder 2).name, 20)] ∧
        ((∀ x ∈ [recorder 1], Listener.NoSet x) → (recorder 2).NoSet →
          received w1.cell.listeners.length (newEvents w2 w3) = [20])) ∧
    ((∀ x ∈ [recorder 1], Listener.Calm x) → (recorder 2).Calm → ∃ w1 w2 w3,
      Set (1 + 1) 0 10 ⟨⟨false, 0, [recorder 1]⟩, []⟩ = .ok () w1 ∧
        Subscribe (recorder 2) w1 = .ok () w2 ∧ Set (1 + 1) 0 20 w2 = .ok () w3)) ∧
    Set 1 0 10 ⟨⟨false, 0, [recorder 1]⟩, []⟩ =
      .ok () ⟨⟨false, 10, [recorder 1]⟩, [.write 10, .invoke 0 0 1 10]⟩ ∧
    Subscribe (recorder 2) ⟨⟨false, 10, [recorder 1]⟩, [.write 10, .invoke 0 0 1 10]⟩ =
      .ok () ⟨⟨false, 10, [recorder 1, recorder 2]⟩, [.write 10, .invoke 0 0 1 10]⟩ ∧
    Set 1 0 20 ⟨⟨false, 10, [recorder 1, recorder 2]⟩, [.write 10, .invoke 0 0 1 10]⟩ =
      .ok () ⟨⟨false, 20, [recorder 1, recorder 2]⟩,
        [.write 10, .invoke 0 0 1 10, .write 20, .invoke 0 0 1 20, .invoke 0 1 2 20]⟩ ∧
    received 1
      [.write 10, .invoke 0 0 1 10, .write 20, .invoke 0 0 1 20, .invoke 0 1 2 20] = [20] :=
  ⟨rfl, C5_late_subscription 1 0 10 20 ⟨⟨false, 0, [recorder 1]⟩, []⟩ (recorder 2) rfl,
    rfl, rfl, rfl, rfl⟩

/-- C6: `Subscribe` does not deduplicate.  After `Subscribe(l)` twice the
listener sequence ends with two registrations of `l`; every later `Set(v)` that
returns (whatever was registered in between) calls `l` with `v` at both
positions; and in every state the number of calls a returning `Set` makes to
listeners named `n` is the number of registrations named `n`.  With listeners
that neither call `Set` nor panic the `Set` returns. -/
theorem C6_duplicate_registration (fuel d : Nat) (v : T) (w : World T) (l : Listener T)
    (hw : w.cell.mu = false) :
    (∃ w1 w2, Subscribe l w = .ok () w1 ∧ Subscribe l w1 = .ok () w2 ∧
      w2.cell.listeners = w.cell.listeners ++ [l, l] ∧ w2.cell.mu = false) ∧
    (∀ (more : List (Listener T)) (wa wb : World T), wa.cell.mu = false →
      wa.cell.listeners = w.cell.listeners ++ [l, l] ++ more →
      Set fuel d v wa = .ok () wb →
        directCalls d (newEvents wa wb) =
          dueCalls v 0 w.cell.listeners ++
            (w.cell.listeners.length, l.name, v) :: (w.cell.listeners.length + 1, l.name, v) ::
              dueCalls v (w.cell.listeners.length + 2) more) ∧
    (∀ (wa wb : World T) (n : Nat), wa.cell.mu = false → Set fuel d v wa = .ok () wb →
      (directCalls d (newEvents wa wb)).countP (fun c => c.2.1 = n) =
        wa.cell.listeners.countP (fun x => x.name = n)) ∧
    (∀ wa : World T, wa.cell.mu = false → (∀ x ∈ wa.cell.listeners, x.Calm) →
      ∃ wb, Set (fuel + 1) d v wa = .ok () wb) := by
  refine ⟨⟨_, _, Subscribe_free l w hw, Subscribe_free l _ rfl, by simp, rfl⟩, ?_, ?_, ?_⟩
  · intro more wa wb hwa hl h
    rw [Set_ok_calls fuel d v wa wb hwa h, hl, dueCalls_append, dueCalls_append]
    simp [dueCalls]
  · intro wa wb n hwa h
    rw [Set_ok_calls fuel d v wa wb hwa h, dueCalls_countP_name]
  · intro wa hwa hc
    obtain ⟨wb, h, _, _⟩ := Set_calm_ok fuel d v wa hwa hc
    exact ⟨wb, h⟩

/-- Witness of C6: recording listener 4 subscribed twice behind listener 3; a
`Set(9)` calls listener 3 once and listener 4 twice. -/
theorem C6_duplicate_registration_witness :
    (⟨⟨false, 0, [recorder 3]⟩, []⟩ : World Nat).cell.mu = false ∧
    ((∃ w1 w2, Subscribe (recorder 4) ⟨⟨false, 0, [recorder 3]⟩, []⟩ = .ok () w1 ∧
        Subscribe (recorder 4) w1 = .ok () w2 ∧
        w2.cell.listeners = [recorder 3] ++ [recorder 4, recorder 4] ∧ w2.cell.mu = false) ∧
    (∀ (more : List (Listener Nat)) (wa wb : World Nat), wa.cell.mu = false →
      wa.cell.listeners = [recorder 3] ++ [recorder 4, recorder 4] ++ more →
      Set 1 0 9 wa = .ok () wb →
        directCalls 0 (newEvents wa wb) =
          dueCalls 9 0 [recorder 3] ++
            ([recorder 3].length, (recorder 4).name, 9) ::
              ([recorder 3].length + 1, (recorder 4).name, 9) ::
                dueCalls 9 ([recorder 3].length + 2) more) ∧
    (∀ (wa wb : World Nat) (n : Nat), wa.cell.mu = false → Set 1 0 9 wa = .ok () wb →
      (directCalls 0 (newEvents wa wb)).countP (fun c => c.2.1 = n) =
        wa.cell.listeners.countP (fun x => x.name = n)) ∧
    (∀ wa : World Nat, wa.cell.mu = false → (∀ x ∈ wa.cell.listeners, x.Calm) →
      ∃ wb, Set (1 + 1) 0 9 wa = .ok () wb)) ∧
    Set 1 0 9 ⟨⟨false, 0, [recorder 3, recorder 4, recorder 4]⟩, []⟩ =
      .ok () ⟨⟨false, 9, [recorder 3, recorder 4, recorder 4]⟩,
        [.write 9, .invoke 0 0 3 9, .invoke 0 1 4 9, .invoke 0 2 4 9]⟩ :=
  ⟨rfl, C6_duplicate_registration 1 0 9 ⟨⟨false, 0, [recorder 3]⟩, []⟩ (recorder 4) rfl, rfl⟩

/-- C7: for every value `initial`, `NewReactive(initial)` is a cell with a free
mutex that stores `initial` and has no listener; `Get()` on it, before any `Set`,
returns `initial`; a `Set(v)` right after construction returns having invoked no
listener.  `NewReactive` is a total function: it has no failure case. -/
theorem C7_construction (initial v : T) (fuel d : Nat) :
    (NewReactive initial).value = initial ∧
    (NewReactive initial).listeners = [] ∧
    (NewReactive initial).mu = false ∧
    Get (World.fresh initial) = .ok initial ⟨NewReactive initial, [.read initial]⟩ ∧
    Set (fuel + 1) d v (World.fresh initial) = .ok () ⟨⟨false, v, []⟩, [.write v]⟩ ∧
    directCalls d [Event.write v] = [] :=
  ⟨rfl, rfl, rfl, rfl, rfl, rfl⟩

/-- C8: on a cell with a free mutex, `Subscribe(l)` returns with the listener
sequence extended by `l` at the end, the stored value unchanged and the history
unchanged: no listener is invoked, `l` included. -/
theorem C8_subscribe_effect_and_frame (l : Listener T) (w : World T)
    (hw : w.cell.mu = false) :
    ∃ w1, Subscribe l w = .ok () w1 ∧
      w1.cell.listeners = w.cell.listeners ++ [l] ∧
      w1.cell.value = w.cell.value ∧
      w1.cell.mu = false ∧
      w1.trace = w.trace ∧
      newEvents w w1 = [] :=
  ⟨_, Subscribe_free l w hw, rfl, rfl, rfl, rfl, by simp [newEvents]⟩

/-- Witness of C8: subscribing recording listener 2 to a cell that holds `4` and
has recording listener 1. -/
theorem C8_subscribe_effect_and_frame_witness :
    (⟨⟨false, 4, [recorder 1]⟩, [.write 4, .invoke 0 0 1 4]⟩ : World Nat).cell.mu = false ∧
    (∃ w1, Subscribe (recorder 2) ⟨⟨false, 4, [recorder 1]⟩, [.write 4, .invoke 0 0 1 4]⟩ =
        .ok () w1 ∧
      w1.cell.listeners = [recorder 1] ++ [recorder 2] ∧
      w1.cell.value = 4 ∧
      w1.cell.mu = false ∧
      w1.trace = [.write 4, .invoke 0 0 1 4] ∧
      newEvents ⟨⟨false, 4, [recorder 1]⟩, [.write 4, .invoke 0 0 1 4]⟩ w1 = []) :=
  ⟨rfl, C8_subscribe_effect_and_frame (recorder 2)
    ⟨⟨false, 4, [recorder 1]⟩, [.write 4, .invoke 0 0 1 4]⟩ rfl⟩

/-- C9: in every state reached from `NewReactive(initial)` by a finite sequence
of `Get`, `Set` and `Subscribe` calls, with arbitrary listeners (their own
`Get`, `Set` and `Subscribe` calls included) and whether the run returned,
panicked or was cut off for lack of fuel, the stored value, which is what `Get`
returns, is `initial` or the argument of an earlier `Set`; and so was every
value that any `Get` of the run returned, at the time it returned.  Such a run
never blocks on the mutex. -/
theorem C9_value_provenance (initial : T) (fuel : Nat) (ops : List (Op T)) :
    (runOps fuel ops (World.fresh initial)).Holds (fun w =>
      Get w = .ok w.cell.value ⟨w.cell, w.trace ++ [.read w.cell.value]⟩ ∧
      (w.cell.value = initial ∨ Event.write w.cell.value ∈ w.trace) ∧
      ∀ pre v post, w.trace = pre ++ .read v :: post → v = initial ∨ Event.write v ∈ pre) := by
  have h := runOps_inv (Sourced initial) (Sourced_stepClosed initial) fuel ops
    (World.fresh initial) rfl (Sourced_fresh initial)
  refine Holds_imp ?_ _ h
  rintro w ⟨⟨hv, hp⟩, hm⟩
  exact ⟨Get_free w hm, hv, hp⟩

/-- C10: let the snapshot of `Set(v)` be `pre ++ l :: post`.  If the loop over
`pre` returns normally (reaching `wa`) and the call `l(v)` then panics (in
`wb`), then `Set(v)` itself panics, in that same state: the failure is not
swallowed; the calls made by the loop are those to `pre` and to `l`, once each,
in order, with `v`, and none to `post`. -/
theorem C10_listener_failure_propagation (fuel d : Nat) (v : T) (w wa wb : World T)
    (pre post : List (Listener T)) (l : Listener T) (hw : w.cell.mu = false)
    (hsplit : w.cell.listeners = pre ++ l :: post)
    (hpre : notify (Set fuel (d + 1)) d v 0 pre (w.store v).unlock = .ok () wa)
    (hfail : runProg (Set fuel (d + 1)) (l.body v) (wa.log (.invoke d pre.length l.name v)) =
      .panic wb) :
    Set (fuel + 1) d v w = .panic wb ∧
    directCalls d (newEvents w wb) = dueCalls v 0 (pre ++ [l]) ∧
    (∀ c ∈ directCalls d (newEvents w wb), c.1 < (pre ++ [l]).length) := by
  have hset : ∀ (v1 : T) (w1 : World T), w1.cell.mu = false →
      (Set fuel (d + 1) v1 w1).Holds (Good (d + 1) w1) :=
    fun v1 w1 h1 => Set_good fuel (d + 1) v1 w1 h1
  have hst : (w.store v).unlock = ⟨⟨false, v, w.cell.listeners⟩, w.trace ++ [.write v]⟩ := rfl
  rw [hst] at hpre
  obtain ⟨es1, he1, hc1⟩ := notify_ok_calls (Set fuel (d + 1)) d v hset pre 0 _ wa rfl hpre
  have hga := notify_good (Set fuel (d + 1)) d v hset pre 0
    ⟨⟨false, v, w.cell.listeners⟩, w.trace ++ [.write v]⟩ rfl
    (by simp only [hsplit, List.length_append, List.length_cons]; omega)
  rw [hpre] at hga
  have hrun := runProg_calls (Set fuel (d + 1)) d hset (l.body v)
    (wa.log (.invoke d pre.length l.name v)) hga.2.2
  rw [hfail] at hrun
  obtain ⟨_, es2, he2, hc2⟩ := hrun
  have hcalls : directCalls d (newEvents w wb) = dueCalls v 0 (pre ++ [l]) := by
    have hn : newEvents w wb = .write v :: (es1 ++ .invoke d pre.length l.name v :: es2) := by
      apply newEvents_eq
      rw [he2]
      simp only [World.log]
      rw [he1]
      simp
    rw [hn, dueCalls_append]
    simp [directCalls, directCalls_append, hc1, hc2, dueCalls]
  refine ⟨?_, hcalls, ?_⟩
  · rw [Set_free fuel d v w hw, hsplit, notify_append]
    rw [hsplit] at hpre
    rw [hpre]
    simp only [notify, Nat.zero_add]
    rw [hfail]
  · intro c hc
    rw [hcalls] at hc
    have := dueCalls_slot v (pre ++ [l]) 0 c hc
    omega

/-- Witness of C10: recording listener 1, a listener 2 that panics, recording
listener 3; `Set(7)` panics after calling listeners 1 and 2, listener 3 is not
called. -/
theorem C10_listener_failure_propagation_witness :
    (⟨⟨false, 0, [recorder 1, failing 2, recorder 3]⟩, []⟩ : World Nat).cell.mu = false ∧
    (⟨⟨false, 0, [recorder 1, failing 2, recorder 3]⟩, []⟩ : World Nat).cell.listeners =
      [recorder 1] ++ failing 2 :: [recorder 3] ∧
    notify (Set 0 (0 + 1)) 0 7 0 [recorder 1]
        ((⟨⟨false, 0, [recorder 1, failing 2, recorder 3]⟩, []⟩ : World Nat).store 7).unlock =
      .ok () ⟨⟨false, 7, [recorder 1, failing 2, recorder 3]⟩, [.write 7, .invoke 0 0 1 7]⟩ ∧
    runProg (Set 0 (0 + 1)) ((failing 2).body 7)
        ((⟨⟨false, 7, [recorder 1, failing 2, recorder 3]⟩,
          [.write 7, .invoke 0 0 1 7]⟩ : World Nat).log
            (.invoke 0 [recorder 1].length (failing 2).name 7)) =
      .panic ⟨⟨false, 7, [recorder 1, failing 2, recorder 3]⟩,
        [.write 7, .invoke 0 0 1 7, .invoke 0 1 2 7]⟩ ∧
    (Set (0 + 1) 0 7 ⟨⟨false, 0, [recorder 1, failing 2, recorder 3]⟩, []⟩ =
      .panic ⟨⟨false, 7, [recorder 1, failing 2, recorder 3]⟩,
        [.write 7, .invoke 0 0 1 7, .invoke 0 1 2 7]⟩ ∧
    directCalls 0 (newEvents ⟨⟨false, 0, [recorder 1, failing 2, recorder 3]⟩, []⟩
        (⟨⟨false, 7, [recorder 1, failing 2, recorder 3]⟩,
          [.write 7, .invoke 0 0 1 7, .invoke 0 1 2 7]⟩ : World Nat)) =
      dueCalls 7 0 ([recorder 1] ++ [failing 2]) ∧
    (∀ c ∈ directCalls 0 (newEvents ⟨⟨false, 0, [recorder 1, failing 2, recorder 3]⟩, []⟩
        (⟨⟨false, 7, [recorder 1, failing 2, recorder 3]⟩,
          [.write 7, .invoke 0 0 1 7, .invoke 0 1 2 7]⟩ : World Nat)),
      c.1 < ([recorder 1] ++ [failing 2]).length)) :=
  ⟨rfl, rfl, rfl, rfl,
    C10_listener_failure_propagation 0 0 7
      ⟨⟨false, 0, [recorder 1, failing 2, recorder 3]⟩, []⟩
      ⟨⟨false, 7, [recorder 1, failing 2, recorder 3]⟩, [.write 7, .invoke 0 0 1 7]⟩
      ⟨⟨false, 7, [recorder 1, failing 2, recorder 3]⟩,
        [.write 7, .invoke 0 0 1 7, .invoke 0 1 2 7]⟩
      [recorder 1] [recorder 3] (failing 2) rfl rfl rfl rfl⟩

/-! ## The mutex during notification -/

theorem Holds_not_deadlock {α σ : Type} {P : σ → Prop} (o : Outcome α σ) (ho : o.Holds P) :
    ∀ s, o ≠ .deadlock s := by
  intro s hs
  rw [hs] at ho
  exact ho

/-- C11: `Set` releases the mutex before its loop and does not take it again.
On a cell with a free mutex, whenever the loop of `Set(v)` reaches a listener `l`
(the loop over the listeners before it has returned), the mutex is free at the
call `l(v)`: a `Get` or a `Subscribe` made there returns, a `Set` made there does
not block, and no body whatsoever run there blocks.  Hence `Set(v)` itself never
blocks, whatever its listeners do. -/
theorem C11_reentrant_set_no_deadlock (fuel d : Nat) (v : T) (w : World T)
    (hw : w.cell.mu = false) :
    (w.store v).unlock.cell.mu = false ∧
    (∀ s, Set fuel d v w ≠ .deadlock s) ∧
    (∀ (pre post : List (Listener T)) (l : Listener T) (wa : World T),
      w.cell.listeners = pre ++ l :: post →
      notify (Set fuel (d + 1)) d v 0 pre (w.store v).unlock = .ok () wa →
        (wa.log (.invoke d pre.length l.name v)).cell.mu = false ∧
        (∃ w1, Get (wa.log (.invoke d pre.length l.name v)) = .ok wa.cell.value w1) ∧
        (∀ x, ∃ w1, Subscribe x (wa.log (.invoke d pre.length l.name v)) = .ok () w1) ∧
        (∀ fuel2 v2 s,
          Set fuel2 (d + 1) v2 (wa.log (.invoke d pre.length l.name v)) ≠ .deadlock s) ∧
        (∀ p s, runProg (Set fuel (d + 1)) p (wa.log (.invoke d pre.length l.name v)) ≠
          .deadlock s)) := by
  have hset : ∀ (v1 : T) (w1 : World T), w1.cell.mu = false →
      (Set fuel (d + 1) v1 w1).Holds (Good (d + 1) w1) :=
    fun v1 w1 h1 => Set_good fuel (d + 1) v1 w1 h1
  refine ⟨rfl, Holds_not_deadlock _ (Set_good fuel d v w hw), ?_⟩
  intro pre post l wa hsplit hpre
  have hst : (w.store v).unlock = ⟨⟨false, v, w.cell.listeners⟩, w.trace ++ [.write v]⟩ := rfl
  rw [hst] at hpre
  have hga := notify_good (Set fuel (d + 1)) d v hset pre 0
    ⟨⟨false, v, w.cell.listeners⟩, w.trace ++ [.write v]⟩ rfl
    (by simp only [hsplit, List.length_append, List.length_cons]; omega)
  rw [hpre] at hga
  have hm : (wa.log (.invoke d pre.length l.name v)).cell.mu = false := hga.2.2
  refine ⟨hm, ⟨_, Get_free _ hm⟩, fun x => ⟨_, Subscribe_free x _ hm⟩, ?_, ?_⟩
  · intro fuel2 v2
    exact Holds_not_deadlock _ (Set_good fuel2 (d + 1) v2 _ hm)
  · intro p
    exact Holds_not_deadlock _ (runProg_good (Set fuel (d + 1)) d hset p _ hm)

/-- Witness of C11: listener 1 calls `Set(9)` when it receives `5`, listener 2
records; the outer `Set(5)` and the re-entrant `Set(9)` both return. -/
theorem C11_reentrant_set_no_deadlock_witness :
    (⟨⟨false, 0, [echo 1 5 9, recorder 2]⟩, []⟩ : World Nat).cell.mu = false ∧
    (((⟨⟨false, 0, [echo 1 5 9, recorder 2]⟩, []⟩ : World Nat).store 5).unlock.cell.mu = false ∧
    (∀ s, Set 2 0 5 ⟨⟨false, 0, [echo 1 5 9, recorder 2]⟩, []⟩ ≠ .deadlock s) ∧
    (∀ (pre post : List (Listener Nat)) (l : Listener Nat) (wa : World Nat),
      (⟨⟨false, 0, [echo 1 5 9, recorder 2]⟩, []⟩ : World Nat).cell.listeners =
        pre ++ l :: post →
      notify (Set 2 (0 + 1)) 0 5 0 pre
        ((⟨⟨false, 0, [echo 1 5 9, recorder 2]⟩, []⟩ : World Nat).store 5).unlock = .ok () wa →
        (wa.log (.invoke 0 pre.length l.name 5)).cell.mu = false ∧
        (∃ w1, Get (wa.log (.invoke 0 pre.length l.name 5)) = .ok wa.cell.value w1) ∧
        (∀ x, ∃ w1, Subscribe x (wa.log (.invoke 0 pre.length l.name 5)) = .ok () w1) ∧
        (∀ fuel2 v2 s,
          Set fuel2 (0 + 1) v2 (wa.log (.invoke 0 pre.length l.name 5)) ≠ .deadlock s) ∧
        (∀ p s, runProg (Set 2 (0 + 1)) p (wa.log (.invoke 0 pre.length l.name 5)) ≠
          .deadlock s))) ∧
    Set 2 0 5 ⟨⟨false, 0, [echo 1 5 9, recorder 2]⟩, []⟩ =
      .ok () ⟨⟨false, 9, [echo 1 5 9, recorder 2]⟩,
        [.write 5, .invoke 0 0 1 5, .write 9, .invoke 1 0 1 9, .invoke 1 1 2 9,
          .invoke 0 1 2 5]⟩ :=
  ⟨rfl, C11_reentrant_set_no_deadlock 2 0 5 ⟨⟨false, 0, [echo 1 5 9, recorder 2]⟩, []⟩ rfl,
    rfl⟩

/-- C12: on a cell with a free mutex `Get()` returns the stored value and leaves
the cell as it was (stored value, listener sequence, mutex); its only trace is
the record of the value returned, so no listener is invoked; a second `Get()`
right after returns the same value. -/
theorem C12_get_no_side_effects (w : World T) (hw : w.cell.mu = false) :
    ∃ w1, Get w = .ok w.cell.value w1 ∧
      w1.cell = w.cell ∧
      newEvents w w1 = [.read w.cell.value] ∧
      (∀ d, directCalls d (newEvents w w1) = []) ∧
      (∀ i, received i (newEvents w w1) = []) ∧
      ∃ w2, Get w1 = .ok w.cell.value w2 ∧ w2.cell = w.cell := by
  have hn : newEvents w ⟨w.cell, w.trace ++ [.read w.cell.value]⟩ = [.read w.cell.value] :=
    newEvents_eq rfl
  refine ⟨_, Get_free w hw, rfl, hn, ?_, ?_, _, Get_free _ hw, rfl⟩
  · intro d; rw [hn]; rfl
  · intro i; rw [hn]; rfl

/-- Witness of C12: `Get()` on a cell that holds `4` and has one recording
listener. -/
theorem C12_get_no_side_effects_witness :
    (⟨⟨false, 4, [recorder 1]⟩, [.write 4, .invoke 0 0 1 4]⟩ : World Nat).cell.mu = false ∧
    (∃ w1, Get ⟨⟨false, 4, [recorder 1]⟩, [.write 4, .invoke 0 0 1 4]⟩ = .ok 4 w1 ∧
      w1.cell = ⟨false, 4, [recorder 1]⟩ ∧
      newEvents ⟨⟨false, 4, [recorder 1]⟩, [.write 4, .invoke 0 0 1 4]⟩ w1 = [.read 4] ∧
      (∀ d, directCalls d
        (newEvents ⟨⟨false, 4, [recorder 1]⟩, [.write 4, .invoke 0 0 1 4]⟩ w1) = []) ∧
      (∀ i, received i
        (newEvents ⟨⟨false, 4, [recorder 1]⟩, [.write 4, .invoke 0 0 1 4]⟩ w1) = []) ∧
      ∃ w2, Get w1 = .ok 4 w2 ∧ w2.cell = ⟨false, 4, [recorder 1]⟩) :=
  ⟨rfl, C12_get_no_side_effects ⟨⟨false, 4, [recorder 1]⟩, [.write 4, .invoke 0 0 1 4]⟩ rfl⟩

/-! ## The listener sequence only grows, and only by `Subscribe` -/

theorem runProg_noSubscribe (setRec : T → World T → Outcome Unit (World T))
    (hset : ∀ v w, w.cell.mu = false → (∀ x ∈ w.cell.listeners, x.NoSubscribe) →
      (setRec v w).Holds (Fixed w))
    (p : Prog T) : ∀ w : World T, p.NoSubscribe → w.cell.mu = false →
      (∀ x ∈ w.cell.listeners, x.NoSubscribe) → (runProg setRec p w).Holds (Fixed w) := by
  induction p with
  | ret => intro w _ hw _; exact ⟨rfl, hw⟩
  | fail => intro w _ hw _; exact ⟨rfl, hw⟩
  | get k ih =>
    intro w hp hw hls
    simp only [runProg, Get_free w hw]
    exact ih _ _ (hp _) hw hls
  | set val k ih =>
    intro w hp hw hls
    have h1 := hset val w hw hls
    simp only [runProg]
    cases hs : setRec val w with
    | ok r w1 =>
      rw [hs] at h1
      have h2 := ih w1 hp h1.2 (by rw [h1.1]; exact hls)
      exact Holds_imp (fun s hs2 => ⟨hs2.1.trans h1.1, hs2.2⟩) _ h2
    | panic w1 => rw [hs] at h1; exact h1
    | deadlock w1 => rw [hs] at h1; exact h1
    | timeout w1 => rw [hs] at h1; exact h1
  | subscribe name body k _ _ => intro w hp _ _; exact hp.elim
  | print s k ih =>
    intro w hp hw hls
    simp only [runProg]
    exact ih (w.log (.output s)) hp hw hls

theorem notify_noSubscribe (setRec : T → World T → Outcome Unit (World T))
    (hset : ∀ v w, w.cell.mu = false → (∀ x ∈ w.cell.listeners, x.NoSubscribe) →
      (setRec v w).Holds (Fixed w))
    (d : Nat) (v : T) (ls : List (Listener T)) : ∀ (slot : Nat) (w : World T),
      (∀ x ∈ ls, x.NoSubscribe) → w.cell.mu = false →
      (∀ x ∈ w.cell.listeners, x.NoSubscribe) →
      (notify setRec d v slot ls w).Holds (Fixed w) := by
  induction ls with
  | nil => intro slot w _ hw _; exact ⟨rfl, hw⟩
  | cons l ls ih =>
    intro slot w hls hw hall
    have hrun := runProg_noSubscribe setRec hset (l.body v) (w.log (.invoke d slot l.name v))
      (hls l (List.mem_cons_self l ls) v) hw hall
    simp only [notify]
    cases hr : runProg setRec (l.body v) (w.log (.invoke d slot l.name v)) with
    | ok r w1 =>
      rw [hr] at hrun
      have h2 := ih (slot + 1) w1 (fun x hx => hls x (List.mem_cons_of_mem l hx)) hrun.2
        (by rw [hrun.1]; exact hall)
      exact Holds_imp (fun s hs2 => ⟨hs2.1.trans hrun.1, hs2.2⟩) _ h2
    | panic w1 => rw [hr] at hrun; exact hrun
    | deadlock w1 => rw [hr] at hrun; exact hrun
    | timeout w1 => rw [hr] at hrun; exact hrun

theorem Set_noSubscribe (fuel : Nat) : ∀ (d : Nat) (v : T) (w : World T),
    w.cell.mu = false → (∀ x ∈ w.cell.listeners, x.NoSubscribe) →
    (Set fuel d v w).Holds (Fixed w) := by
  induction fuel with
  | zero => intro d v w hw _; exact ⟨rfl, hw⟩
  | succ fuel ih =>
    intro d v w hw hls
    rw [Set_free fuel d v w hw]
    exact notify_noSubscribe (Set fuel (d + 1)) (fun v1 w1 h1 h2 => ih (d + 1) v1 w1 h1 h2)
      d v w.cell.listeners 0 ⟨⟨false, v, w.cell.listeners⟩, w.trace ++ [.write v]⟩ hls rfl hls

/-- C13: on a cell with a free mutex, `Get` leaves the listener sequence as it
is, `Subscribe(l)` appends `l` (one more entry), and after `Set(v)`, or after any
body run by a listener during a `Set`, whether it returned, panicked or was cut
off, the sequence is the earlier one followed by new entries: nothing is
removed, reordered or replaced.  When no registered listener calls `Subscribe`,
`Set(v)` leaves the sequence as it is. -/
theorem C13_listeners_attach_only (fuel d : Nat) (v : T) (l : Listener T) (p : Prog T)
    (w : World T) (hw : w.cell.mu = false) :
    (∃ w1, Get w = .ok w.cell.value w1 ∧ w1.cell.listeners = w.cell.listeners) ∧
    (∃ w1, Subscribe l w = .ok () w1 ∧ w1.cell.listeners = w.cell.listeners ++ [l] ∧
      w1.cell.listeners.length = w.cell.listeners.length + 1) ∧
    (Set fuel d v w).Holds (fun w1 => ∃ xs, w1.cell.listeners = w.cell.listeners ++ xs) ∧
    (runProg (Set fuel (d + 1)) p w).Holds
      (fun w1 => ∃ xs, w1.cell.listeners = w.cell.listeners ++ xs) ∧
    ((∀ x ∈ w.cell.listeners, x.NoSubscribe) →
      (Set fuel d v w).Holds (fun w1 => w1.cell.listeners = w.cell.listeners)) := by
  refine ⟨⟨_, Get_free w hw, rfl⟩, ⟨_, Subscribe_free l w hw, rfl, by simp⟩, ?_, ?_, ?_⟩
  · exact Holds_imp (fun s hs => hs.1) _ (Set_good fuel d v w hw)
  · exact Holds_imp (fun s hs => hs.1) _
      (runProg_good (Set fuel (d + 1)) d (fun v1 w1 h1 => Set_good fuel (d + 1) v1 w1 h1) p w hw)
  · intro hls
    exact Holds_imp (fun s hs => hs.1) _ (Set_noSubscribe fuel d v w hw hls)

/-- Witness of C13: a cell with a listener that subscribes listener 2 at each
invocation; `Set(5)` leaves `[registrar, recorder 2]`, the old sequence followed
by the new entry. -/
theorem C13_listeners_attach_only_witness :
    (⟨⟨false, 0, [registrar 1 (recorder 2)]⟩, []⟩ : World Nat).cell.mu = false ∧
    ((∃ w1, Get ⟨⟨false, 0, [registrar 1 (recorder 2)]⟩, []⟩ = .ok 0 w1 ∧
      w1.cell.listeners = [registrar 1 (recorder 2)]) ∧
    (∃ w1, Subscribe (recorder 3) ⟨⟨false, 0, [registrar 1 (recorder 2)]⟩, []⟩ = .ok () w1 ∧
      w1.cell.listeners = [registrar 1 (recorder 2)] ++ [recorder 3] ∧
      w1.cell.listeners.length = [registrar 1 (recorder 2)].length + 1) ∧
    (Set 1 0 5 ⟨⟨false, 0, [registrar 1 (recorder 2)]⟩, []⟩).Holds
      (fun w1 => ∃ xs, w1.cell.listeners = [registrar 1 (recorder 2)] ++ xs) ∧
    (runProg (Set 1 (0 + 1)) (Prog.set 6 .ret)
        ⟨⟨false, 0, [registrar 1 (recorder 2)]⟩, []⟩).Holds
      (fun w1 => ∃ xs, w1.cell.listeners = [registrar 1 (recorder 2)] ++ xs) ∧
    ((∀ x ∈ [registrar 1 (recorder 2)], Listener.NoSubscribe x) →
      (Set 1 0 5 ⟨⟨false, 0, [registrar 1 (recorder 2)]⟩, []⟩).Holds
        (fun w1 => w1.cell.listeners = [registrar 1 (recorder 2)]))) ∧
    Set 1 0 5 ⟨⟨false, 0, [registrar 1 (recorder 2)]⟩, []⟩ =
      .ok () ⟨⟨false, 5, [registrar 1 (recorder 2), recorder 2]⟩,
        [.write 5, .invoke 0 0 1 5]⟩ :=
  ⟨rfl, C13_listeners_attach_only 1 0 5 (recorder 3) (Prog.set 6 .ret)
    ⟨⟨false, 0, [registrar 1 (recorder 2)]⟩, []⟩ rfl, rfl⟩

/-! ## A re-entrant `Set` -/

theorem echo_run (v w init : Nat) (hvw : v ≠ w) :
    Set 2 0 v ⟨⟨false, init, [echo 1 v w, recorder 2]⟩, []⟩ =
      .ok () ⟨⟨false, w, [echo 1 v w, recorder 2]⟩,
        [.write v, .invoke 0 0 1 v, .write w, .invoke 1 0 1 w, .invoke 1 1 2 w,
          .invoke 0 1 2 v]⟩ := by
  have hwv : ¬ w = v := fun h => hvw h.symm
  simp [Set, notify, runProg, echo, recorder, World.store, World.lock, World.unlock,
    World.log, hwv]

/-- C15: listener 1 calls `Set(w)` when it receives `v` (`w` different from `v`),
listener 2, subscribed after it, records.  One outer `Set(v)` returns with the
writes serialized as `v` then `w`, with listener 2 having received `[w, v]`, and
with `w` stored, so that `Get()` returns `w`, not the last value listener 2
received. -/
theorem C15_reentrant_set_reorders (v w init fuel : Nat) (hvw : v ≠ w) :
    ∃ w1, Set (fuel + 2) 0 v ⟨⟨false, init, [echo 1 v w, recorder 2]⟩, []⟩ = .ok () w1 ∧
      writesOf w1.trace = [v, w] ∧
      received 1 w1.trace = [w, v] ∧
      received 0 w1.trace = [v, w] ∧
      (∃ w2, Get w1 = .ok w w2) ∧
      (received 1 w1.trace).getLast? = some v := by
  have h2 := echo_run v w init hvw
  have hf : Set (2 + fuel) 0 v ⟨⟨false, init, [echo 1 v w, recorder 2]⟩, []⟩ =
      Set 2 0 v ⟨⟨false, init, [echo 1 v w, recorder 2]⟩, []⟩ :=
    Set_fuel_add 2 fuel 0 v _ (by rw [h2]; rfl)
  rw [Nat.add_comm fuel 2, hf, h2]
  refine ⟨_, rfl, ?_, ?_, ?_, ⟨_, Get_free _ rfl⟩, ?_⟩
  · simp [writesOf]
  · simp [received]
  · simp [received]
  · simp [received]

/-- Witness of C15: `v = 5`, `w = 9`, on a cell constructed with `0`. -/
theorem C15_reentrant_set_reorders_witness :
    (5 : Nat) ≠ 9 ∧
    (∃ w1, Set (0 + 2) 0 5 ⟨⟨false, 0, [echo 1 5 9, recorder 2]⟩, []⟩ = .ok () w1 ∧
      writesOf w1.trace = [5, 9] ∧
      received 1 w1.trace = [9, 5] ∧
      received 0 w1.trace = [5, 9] ∧
      (∃ w2, Get w1 = .ok 9 w2) ∧
      (received 1 w1.trace).getLast? = some 5) :=
  ⟨by decide, C15_reentrant_set_reorders 5 9 0 0 (by decide)⟩

/-! ## Writes of the stored value, and the state after a panic -/

theorem dueCalls_targets (v v2 : T) (ls : List (Listener T)) : ∀ slot : Nat,
    (dueCalls v slot ls).map (fun c => (c.1, c.2.1)) =
      (dueCalls v2 slot ls).map (fun c => (c.1, c.2.1)) := by
  induction ls with
  | nil => intro slot; rfl
  | cons l ls ih =>
    intro slot
    simp only [dueCalls, List.map_cons, ih (slot + 1)]

/-- C16: there is no comparison of old and new value.  On a cell with a free
mutex, a call `Set(v)` with `v` the value already stored, when it returns, has
called every registered listener once, in order, with `v`; the listeners called
(loop index and listener) are the same as for a `Set` of any other value `v2`.
With listeners that neither call `Set` nor panic the call does return. -/
theorem C16_no_diffing (fuel d : Nat) (v2 : T) (w : World T) (hw : w.cell.mu = false) :
    (∀ w1, Set fuel d w.cell.value w = .ok () w1 →
      directCalls d (newEvents w w1) = dueCalls w.cell.value 0 w.cell.listeners ∧
      (directCalls d (newEvents w w1)).length = w.cell.listeners.length ∧
      ∀ w2, Set fuel d v2 w = .ok () w2 →
        (directCalls d (newEvents w w2)).map (fun c => (c.1, c.2.1)) =
          (directCalls d (newEvents w w1)).map (fun c => (c.1, c.2.1))) ∧
    ((∀ x ∈ w.cell.listeners, x.Calm) → ∃ w1, Set (fuel + 1) d w.cell.value w = .ok () w1) := by
  refine ⟨fun w1 h => ?_, fun hc => ?_⟩
  · have h1 := Set_ok_calls fuel d w.cell.value w w1 hw h
    refine ⟨h1, ?_, fun w2 h2 => ?_⟩
    · have hlen : ∀ (ls : List (Listener T)) (s : Nat),
          (dueCalls w.cell.value s ls).length = ls.length := by
        intro ls
        induction ls with
        | nil => intro s; rfl
        | cons l ls ih => intro s; simp [dueCalls, ih (s + 1)]
      rw [h1, hlen]
    · rw [h1, Set_ok_calls fuel d v2 w w2 hw h2]
      exact dueCalls_targets v2 w.cell.value w.cell.listeners 0
  · obtain ⟨w1, h, _, _⟩ := Set_calm_ok fuel d w.cell.value w hw hc
    exact ⟨w1, h⟩

/-- Witness of C16: a cell that holds `4` with two recording listeners; `Set(4)`
calls both with `4`. -/
theorem C16_no_diffing_witness :
    (⟨⟨false, 4, [recorder 1, recorder 2]⟩, []⟩ : World Nat).cell.mu = false ∧
    ((∀ w1, Set 1 0 4 ⟨⟨false, 4, [recorder 1, recorder 2]⟩, []⟩ = .ok () w1 →
      directCalls 0 (newEvents ⟨⟨false, 4, [recorder 1, recorder 2]⟩, []⟩ w1) =
        dueCalls 4 0 [recorder 1, recorder 2] ∧
      (directCalls 0 (newEvents ⟨⟨false, 4, [recorder 1, recorder 2]⟩, []⟩ w1)).length =
        [recorder 1, recorder 2].length ∧
      ∀ w2, Set 1 0 8 ⟨⟨false, 4, [recorder 1, recorder 2]⟩, []⟩ = .ok () w2 →
        (directCalls 0 (newEvents ⟨⟨false, 4, [recorder 1, recorder 2]⟩, []⟩ w2)).map
            (fun c => (c.1, c.2.1)) =
          (directCalls 0 (newEvents ⟨⟨false, 4, [recorder 1, recorder 2]⟩, []⟩ w1)).map
            (fun c => (c.1, c.2.1))) ∧
    ((∀ x ∈ [recorder 1, recorder 2], Listener.Calm x) →
      ∃ w1, Set (1 + 1) 0 4 ⟨⟨false, 4, [recorder 1, recorder 2]⟩, []⟩ = .ok () w1)) ∧
    Set 1 0 4 ⟨⟨false, 4, [recorder 1, recorder 2]⟩, []⟩ =
      .ok () ⟨⟨false, 4, [recorder 1, recorder 2]⟩,
        [.write 4, .invoke 0 0 1 4, .invoke 0 1 2 4]⟩ :=
  ⟨rfl, C16_no_diffing 1 0 8 ⟨⟨false, 4, [recorder 1, recorder 2]⟩, []⟩ rfl, rfl⟩

/-! ## The registrations made during a `Set` -/

theorem SetSubs_free (fuel d : Nat) (v : T) (w : World T) (h : w.cell.mu = false) :
    SetSubs (fuel + 1) d v w =
      notifySubs (Set fuel (d + 1)) (SetSubs fuel (d + 1)) d v 0 w.cell.listeners
        ⟨⟨false, v, w.cell.listeners⟩, w.trace ++ [.write v]⟩ := by
  obtain ⟨⟨mu, value, listeners⟩, trace⟩ := w
  simp only at h
  subst h
  rfl

theorem runProg_subs (setRec : T → World T → Outcome Unit (World T))
    (setSubs : T → World T → List (Listener T))
    (hset : ∀ v w, w.cell.mu = false → (setRec v w).Holds (Added (setSubs v w) w))
    (p : Prog T) : ∀ w : World T, w.cell.mu = false →
      (runProg setRec p w).Holds (Added (runProgSubs setRec setSubs p w) w) := by
  induction p with
  | ret => intro w hw; exact ⟨by simp [runProgSubs], hw⟩
  | fail => intro w hw; exact ⟨by simp [runProgSubs], hw⟩
  | get k ih =>
    intro w hw
    simp only [runProg, runProgSubs, Get_free w hw]
    exact ih _ _ hw
  | set val k ih =>
    intro w hw
    have h1 := hset val w hw
    simp only [runProg, runProgSubs]
    cases hs : setRec val w with
    | ok r w1 =>
      rw [hs] at h1
      refine Holds_imp ?_ _ (ih w1 h1.2)
      rintro s ⟨hl, hm⟩
      exact ⟨by rw [hl, h1.1, List.append_assoc], hm⟩
    | panic w1 => rw [hs] at h1; exact h1
    | deadlock w1 => rw [hs] at h1; exact h1
    | timeout w1 => rw [hs] at h1; exact h1
  | subscribe name body k _ ih =>
    intro w hw
    simp only [runProg, runProgSubs, Subscribe_free _ w hw]
    refine Holds_imp ?_ _ (ih _ rfl)
    rintro s ⟨hl, hm⟩
    exact ⟨by rw [hl]; simp, hm⟩
  | print s k ih =>
    intro w hw
    simp only [runProg, runProgSubs]
    exact ih (w.log (.output s)) hw

theorem notify_subs (setRec : T → World T → Outcome Unit (World T))
    (setSubs : T → World T → List (Listener T))
    (hset : ∀ v w, w.cell.mu = false → (setRec v w).Holds (Added (setSubs v w) w))
    (d : Nat) (v : T) (ls : List (Listener T)) : ∀ (slot : Nat) (w : World T),
      w.cell.mu = false →
      (notify setRec d v slot ls w).Holds (Added (notifySubs setRec setSubs d v slot ls w) w) := by
  induction ls with
  | nil => intro slot w hw; exact ⟨by simp [notifySubs], hw⟩
  | cons l ls ih =>
    intro slot w hw
    have hrun := runProg_subs setRec setSubs hset (l.body v)
      (w.log (.invoke d slot l.name v)) hw
    simp only [notify, notifySubs]
    cases hr : runProg setRec (l.body v) (w.log (.invoke d slot l.name v)) with
    | ok r w1 =>
      rw [hr] at hrun
      refine Holds_imp ?_ _ (ih (slot + 1) w1 hrun.2)
      rintro s ⟨hl, hm⟩
      refine ⟨?_, hm⟩
      rw [hl, hrun.1, List.append_assoc]
      rfl
    | panic w1 => rw [hr] at hrun; exact hrun
    | deadlock w1 => rw [hr] at hrun; exact hrun
    | timeout w1 => rw [hr] at hrun; exact hrun

theorem Set_subs (fuel : Nat) : ∀ (d : Nat) (v : T) (w : World T), w.cell.mu = false →
    (Set fuel d v w).Holds (Added (SetSubs fuel d v w) w) := by
  induction fuel with
  | zero => intro d v w hw; exact ⟨by simp [SetSubs], hw⟩
  | succ fuel ih =>
    intro d v w hw
    rw [Set_free fuel d v w hw, SetSubs_free fuel d v w hw]
    exact notify_subs (Set fuel (d + 1)) (SetSubs fuel (d + 1))
      (fun v1 w1 h1 => ih (d + 1) v1 w1 h1) d v w.cell.listeners 0
      ⟨⟨false, v, w.cell.listeners⟩, w.trace ++ [.write v]⟩ rfl

/-- C17, as amended: on a cell with a free mutex, when `Set(v)` panics because a
listener failed, nothing is rolled back.  The listener sequence left behind is
the one before the call followed by exactly the listeners handed to the
`Subscribe` calls made during the call up to the failure, in call order (those
of the listeners that ran before the failing one and those the failing listener
made before it failed), and the mutex is free.  When moreover no listener calls
`Set` on the cell, the value left behind is `v` and a later `Get()` returns
`v`. -/
theorem C17_state_after_listener_failure (fuel d : Nat) (v : T) (w wb : World T)
    (hw : w.cell.mu = false) (h : Set fuel d v w = .panic wb) :
    wb.cell.listeners = w.cell.listeners ++ SetSubs fuel d v w ∧
    wb.cell.mu = false ∧
    Event.write v ∈ newEvents w wb ∧
    ((∀ x ∈ w.cell.listeners, x.NoSet) →
      wb.cell.value = v ∧ ∃ w2, Get wb = .ok v w2 ∧ w2.cell = wb.cell) := by
  have hs := Set_subs fuel d v w hw
  rw [h] at hs
  refine ⟨hs.1, hs.2, ?_, ?_⟩
  · cases fuel with
    | zero => simp [Set] at h
    | succ fuel =>
      rw [Set_free fuel d v w hw] at h
      have hn := notify_good (Set fuel (d + 1)) d v
        (fun v1 w1 h1 => Set_good fuel (d + 1) v1 w1 h1) w.cell.listeners 0
        ⟨⟨false, v, w.cell.listeners⟩, w.trace ++ [.write v]⟩ rfl (by simp)
      rw [h] at hn
      obtain ⟨_, ⟨es, he, _⟩, _⟩ := hn
      have hne : newEvents w wb = .write v :: es := by
        apply newEvents_eq
        rw [he]; simp
      rw [hne]
      exact List.mem_cons_self _ _
  · intro hls
    cases fuel with
    | zero => simp [Set] at h
    | succ fuel =>
      have hk := Set_noSet fuel d v w hw hls
      rw [h] at hk
      refine ⟨hk.2.1, ⟨wb.cell, wb.trace ++ [.read v]⟩, ?_, rfl⟩
      rw [Get_free wb hk.1, hk.2.1]

/-- Witness of C17: listener 1 subscribes recording listener 9, listener 2
subscribes recording listener 8 and then panics, listener 3 records.  `Set(7)` on
a cell that holds `0` panics and leaves `7` stored and the listener sequence
1, 2, 3, 9, 8: both registrations made before the failure are kept. -/
theorem C17_state_after_listener_failure_witness :
    (⟨⟨false, 0, [registrar 1 (recorder 9), failingRegistrar 2 (recorder 8), recorder 3]⟩,
      []⟩ : World Nat).cell.mu = false ∧
    Set 1 0 7 ⟨⟨false, 0,
        [registrar 1 (recorder 9), failingRegistrar 2 (recorder 8), recorder 3]⟩, []⟩ =
      .panic ⟨⟨false, 7,
        [registrar 1 (recorder 9), failingRegistrar 2 (recorder 8), recorder 3,
          recorder 9, recorder 8]⟩,
        [.write 7, .invoke 0 0 1 7, .invoke 0 1 2 7]⟩ ∧
    ([registrar 1 (recorder 9), failingRegistrar 2 (recorder 8), recorder 3,
        recorder 9, recorder 8] =
      [registrar 1 (recorder 9), failingRegistrar 2 (recorder 8), recorder 3] ++
        SetSubs 1 0 7 ⟨⟨false, 0,
          [registrar 1 (recorder 9), failingRegistrar 2 (recorder 8), recorder 3]⟩, []⟩ ∧
    (⟨⟨false, 7,
        [registrar 1 (recorder 9), failingRegistrar 2 (recorder 8), recorder 3,
          recorder 9, recorder 8]⟩,
        [.write 7, .invoke 0 0 1 7, .invoke 0 1 2 7]⟩ : World Nat).cell.mu = false ∧
    Event.write 7 ∈ newEvents
      ⟨⟨false, 0, [registrar 1 (recorder 9), failingRegistrar 2 (recorder 8), recorder 3]⟩, []⟩
      (⟨⟨false, 7,
        [registrar 1 (recorder 9), failingRegistrar 2 (recorder 8), recorder 3,
          recorder 9, recorder 8]⟩,
        [.write 7, .invoke 0 0 1 7, .invoke 0 1 2 7]⟩ : World Nat) ∧
    ((∀ x ∈ [registrar 1 (recorder 9), failingRegistrar 2 (recorder 8), recorder 3],
        Listener.NoSet x) →
      (7 : Nat) = 7 ∧ ∃ w2, Get (⟨⟨false, 7,
          [registrar 1 (recorder 9), failingRegistrar 2 (recorder 8), recorder 3,
            recorder 9, recorder 8]⟩,
          [.write 7, .invoke 0 0 1 7, .invoke 0 1 2 7]⟩ : World Nat) = .ok 7 w2 ∧
        w2.cell = ⟨false, 7,
          [registrar 1 (recorder 9), failingRegistrar 2 (recorder 8), recorder 3,
            recorder 9, recorder 8]⟩)) ∧
    SetSubs 1 0 7 ⟨⟨false, 0,
        [registrar 1 (recorder 9), failingRegistrar 2 (recorder 8), recorder 3]⟩, []⟩ =
      [recorder 9, recorder 8] :=
  ⟨rfl, rfl,
    C17_state_after_listener_failure 1 0 7
      ⟨⟨false, 0, [registrar 1 (recorder 9), failingRegistrar 2 (recorder 8), recorder 3]⟩, []⟩
      ⟨⟨false, 7,
        [registrar 1 (recorder 9), failingRegistrar 2 (recorder 8), recorder 3,
          recorder 9, recorder 8]⟩,
        [.write 7, .invoke 0 0 1 7, .invoke 0 1 2 7]⟩ rfl rfl,
    rfl⟩

/-- C17 as stated fails: listener 1 calls `Set(9)` when it receives `5`, listener
2 panics.  `Set(5)` on a cell that holds `0` panics (listener 2 fails inside the
re-entrant `Set(9)`), and the value left behind is `9`, not `5`. -/
theorem C17_reentrant_write_counterexample :
    Set 2 0 5 ⟨⟨false, 0, [echo 1 5 9, failing 2]⟩, []⟩ =
      .panic ⟨⟨false, 9, [echo 1 5 9, failing 2]⟩,
        [.write 5, .invoke 0 0 1 5, .write 9, .invoke 1 0 1 9, .invoke 1 1 2 9]⟩ ∧
    Get (⟨⟨false, 9, [echo 1 5 9, failing 2]⟩,
        [.write 5, .invoke 0 0 1 5, .write 9, .invoke 1 0 1 9, .invoke 1 1 2 9]⟩ : World Nat) =
      .ok 9 ⟨⟨false, 9, [echo 1 5 9, failing 2]⟩,
        [.write 5, .invoke 0 0 1 5, .write 9, .invoke 1 0 1 9, .invoke 1 1 2 9, .read 9]⟩ ∧
    (9 : Nat) ≠ 5 :=
  ⟨rfl, rfl, by decide⟩

/-! ## The demo program -/

theorem outputsOf_append (xs ys : List (Event T)) :
    outputsOf (xs ++ ys) = outputsOf xs ++ outputsOf ys := by
  induction xs with
  | nil => rfl
  | cons e xs ih =>
    cases e with
    | output s => simp [outputsOf, ih]
    | write v => simpa [outputsOf] using ih
    | read v => simpa [outputsOf] using ih
    | invoke d s n v => simpa [outputsOf] using ih

theorem wrapInt_add (bits : Nat) (a b : Int) :
    wrapInt bits (wrapInt bits a + b) = wrapInt bits (a + b) := by
  unfold wrapInt
  have h1 : (a + 2 ^ (bits - 1)) % 2 ^ bits - 2 ^ (bits - 1) + b + 2 ^ (bits - 1) =
      (a + 2 ^ (bits - 1)) % 2 ^ bits + b := by ring
  have h2 : a + b + 2 ^ (bits - 1) = a + 2 ^ (bits - 1) + b := by ring
  rw [h1, h2, Int.emod_add_emod]

theorem wrapInt_of_small (bits : Nat) (hb : 0 < bits) (x : Int) (h0 : 0 ≤ x)
    (hx : x < 2 ^ (bits - 1)) : wrapInt bits x = x := by
  obtain ⟨b, rfl⟩ : ∃ b, bits = b + 1 := ⟨bits - 1, by omega⟩
  simp only [Nat.add_sub_cancel] at hx
  unfold wrapInt
  simp only [Nat.add_sub_cancel]
  have hp : (2 : Int) ^ (b + 1) = 2 ^ b * 2 := pow_succ 2 b
  have hpos : (0 : Int) < 2 ^ b := by positivity
  rw [hp, Int.emod_eq_of_lt (by linarith) (by linarith)]
  ring

theorem beforeQuit_idem (lines : List String) : beforeQuit (beforeQuit lines) = beforeQuit lines := by
  induction lines with
  | nil => rfl
  | cons s rest ih =>
    by_cases hq : s = "q"
    · simp [beforeQuit, hq]
    · simp [beforeQuit, hq, ih]

theorem demo_step (fuel : Nat) (nv : Int) (w : World Int) (hw : w.cell.mu = false)
    (hl : w.cell.listeners = [printer]) :
    Set (fuel + 1) 0 nv w =
      .ok () ⟨⟨false, nv, [printer]⟩,
        w.trace ++ [.write nv, .invoke 0 0 0 nv, .output ("\rCounter: " ++ toString nv)]⟩ := by
  rw [Set_free fuel 0 nv w hw, hl]
  simp [notify, runProg, printer, World.log]

theorem demoLoop_run (bits fuel : Nat) (lines : List String) : ∀ (k : Nat) (w : World Int),
    w.cell.mu = false → w.cell.listeners = [printer] → w.cell.value = wrapInt bits k →
    ∃ w1, demoLoop bits (fuel + 1) lines w = .ok () w1 ∧
      w1.cell.value = wrapInt bits ((k + (beforeQuit lines).length : Nat) : Int) ∧
      w1.cell.listeners = [printer] ∧
      outputsOf w1.trace =
        outputsOf w.trace ++ counterLines bits k (beforeQuit lines).length := by
  induction lines with
  | nil =>
    intro k w _ hl hv
    exact ⟨w, rfl, by simpa [beforeQuit] using hv, hl, by simp [beforeQuit, counterLines]⟩
  | cons s rest ih =>
    intro k w hw hl hv
    by_cases hq : s = "q"
    · exact ⟨w, by simp [demoLoop, hq], by simpa [beforeQuit, hq] using hv, hl,
        by simp [beforeQuit, hq, counterLines]⟩
    · have hnv : wrapInt bits (w.cell.value + 1) = wrapInt bits ((k + 1 : Nat) : Int) := by
        rw [hv, wrapInt_add]
        push_cast
        rfl
      have hstep := demo_step fuel (wrapInt bits (w.cell.value + 1))
        ⟨w.cell, w.trace ++ [.read w.cell.value]⟩ hw hl
      obtain ⟨w1, h1, hv1, hl1, ho1⟩ := ih (k + 1)
        ⟨⟨false, wrapInt bits (w.cell.value + 1), [printer]⟩,
          (w.trace ++ [.read w.cell.value]) ++
            [.write (wrapInt bits (w.cell.value + 1)),
              .invoke 0 0 0 (wrapInt bits (w.cell.value + 1)),
              .output ("\rCounter: " ++ toString (wrapInt bits (w.cell.value + 1)))]⟩
        rfl rfl hnv
      refine ⟨w1, ?_, ?_, hl1, ?_⟩
      · simp only [demoLoop, hq, if_false, Get_free w hw]
        rw [hstep]
        exact h1
      · rw [hv1]
        simp only [beforeQuit, hq, if_false, List.length_cons]
        congr 2
        omega
      · rw [ho1]
        simp only [beforeQuit, hq, if_false, List.length_cons, counterLines, outputsOf_append,
          outputsOf, List.append_nil, List.append_assoc, List.singleton_append, List.nil_append]
        have hk : wrapInt bits (w.cell.value + 1) = wrapInt bits ((k : Int) + 1) := by
          rw [hnv]; push_cast; rfl
        rw [hk]

theorem demoLoop_beforeQuit (bits fuel : Nat) (lines : List String) : ∀ w : World Int,
    demoLoop bits fuel (beforeQuit lines) w = demoLoop bits fuel lines w := by
  induction lines with
  | nil => intro w; rfl
  | cons s rest ih =>
    intro w
    by_cases hq : s = "q"
    · simp [beforeQuit, demoLoop, hq]
    · simp only [beforeQuit, hq, if_false, demoLoop]
      cases Get w with
      | ok current w1 =>
        simp only
        cases Set fuel 0 (wrapInt bits (current + 1)) w1 with
        | ok r w2 => exact ih w2
        | panic w2 => rfl
        | deadlock w2 => rfl
        | timeout w2 => rfl
      | panic w1 => rfl
      | deadlock w1 => rfl
      | timeout w1 => rfl

theorem demoMain_run (bits fuel : Nat) (hb : 0 < bits) (lines : List String) :
    ∃ w, demoMain bits (fuel + 1) lines = .ok () w ∧
      w.cell.value = wrapInt bits (((beforeQuit lines).length : Nat) : Int) ∧
      outputsOf w.trace = banner :: counterLines bits 0 (beforeQuit lines).length := by
  obtain ⟨w, h, hv, _, ho⟩ := demoLoop_run bits fuel lines 0
    ⟨⟨false, 0, [printer]⟩, [.output banner]⟩ rfl rfl
    (by rw [wrapInt_of_small bits hb _ (by simp) (by positivity)]; rfl)
  refine ⟨w, h, ?_, ?_⟩
  · simpa using hv
  · simpa [outputsOf] using ho

theorem toString_natCast (m : Nat) : toString ((m : Nat) : Int) = toString m := rfl

theorem counterLines_small (bits : Nat) (hb : 0 < bits) (n : Nat) : ∀ k : Nat,
    ((k + n : Nat) : Int) < 2 ^ (bits - 1) →
    counterLines bits k n =
      (List.range n).map (fun i => "\rCounter: " ++ toString (k + i + 1)) := by
  induction n with
  | zero => intro k _; rfl
  | succ n ih =>
    intro k hk
    have hk1 : (((k + 1) + n : Nat) : Int) < 2 ^ (bits - 1) := by
      have : k + 1 + n = k + (n + 1) := by omega
      rw [this]; exact hk
    have hsmall : wrapInt bits ((k : Int) + 1) = ((k + 1 : Nat) : Int) := by
      rw [wrapInt_of_small bits hb _ (by positivity) (by push_cast at hk ⊢; linarith)]
      push_cast
      rfl
    rw [counterLines, ih (k + 1) hk1, hsmall, toString_natCast, List.range_succ_eq_map]
    simp only [List.map_cons, List.map_map, Nat.add_zero]
    congr 1
    apply List.map_congr_left
    intro i _
    simp only [Function.comp, Nat.succ_eq_add_one]
    congr 2
    omega

theorem beforeQuit_replicate (n : Nat) :
    beforeQuit (List.replicate n "") = List.replicate n "" := by
  induction n with
  | zero => rfl
  | succ n ih =>
    rw [List.replicate_succ, beforeQuit, if_neg (by decide), ih]

/-- C18, as amended: let `n` be the number of input lines before the first line
equal to `"q"` (all lines if there is none), and let the counter, a Go `int` of
width `bits`, not overflow: `n < 2 ^ (bits - 1)`.  Then `main` returns, at that
`"q"` or at the end of the input; the counter cell holds `n`; what was written is
the banner line of `main` followed by exactly the pieces `"\rCounter: k"` for
`k = 1, ..., n` in order, none with a newline; and the lines from the first
`"q"` on have no effect: the run is the run on the lines before it. -/
theorem C18_demo_counter_loop (bits fuel : Nat) (lines : List String) (hb : 0 < bits)
    (hn : (((beforeQuit lines).length : Nat) : Int) < 2 ^ (bits - 1)) :
    ∃ w, demoMain bits (fuel + 1) lines = .ok () w ∧
      w.cell.value = ((beforeQuit lines).length : Nat) ∧
      outputsOf w.trace =
        banner :: (List.range (beforeQuit lines).length).map
          (fun i => "\rCounter: " ++ toString (i + 1)) ∧
      demoMain bits (fuel + 1) (beforeQuit lines) = demoMain bits (fuel + 1) lines := by
  obtain ⟨w, h, hv, ho⟩ := demoMain_run bits fuel hb lines
  refine ⟨w, h, ?_, ?_, ?_⟩
  · rw [hv, wrapInt_of_small bits hb _ (by positivity) hn]
  · rw [ho, counterLines_small bits hb _ 0 (by simpa using hn)]
    simp
  · simp only [demoMain, Subscribe_free printer (World.fresh 0) rfl]
    exact demoLoop_beforeQuit bits (fuel + 1) lines _

/-- Witness of C18: a 64-bit counter and the input lines `""`, `"x"`, `"q"`,
`"y"`: two increments, then the program stops at `"q"`. -/
theorem C18_demo_counter_loop_witness :
    0 < 64 ∧
    (((beforeQuit ["", "x", "q", "y"]).length : Nat) : Int) < 2 ^ (64 - 1) ∧
    (∃ w, demoMain 64 (0 + 1) ["", "x", "q", "y"] = .ok () w ∧
      w.cell.value = ((beforeQuit ["", "x", "q", "y"]).length : Nat) ∧
      outputsOf w.trace =
        banner :: (List.range (beforeQuit ["", "x", "q", "y"]).length).map
          (fun i => "\rCounter: " ++ toString (i + 1)) ∧
      demoMain 64 (0 + 1) (beforeQuit ["", "x", "q", "y"]) =
        demoMain 64 (0 + 1) ["", "x", "q", "y"]) ∧
    beforeQuit ["", "x", "q", "y"] = ["", "x"] ∧
    (List.range 2).map (fun i => "\rCounter: " ++ toString (i + 1)) =
      ["\rCounter: 1", "\rCounter: 2"] :=
  ⟨by decide, by decide,
    C18_demo_counter_loop 64 0 ["", "x", "q", "y"] (by decide) (by decide),
    by decide, by decide⟩

/-- C18 as stated fails for a counter that overflows: with a 64-bit `int` and
`2 ^ 63` empty input lines (none is `"q"`), `main` returns with the counter at
`-2 ^ 63`, not at the number of lines. -/
theorem C18_counter_overflow_counterexample :
    (beforeQuit (List.replicate (2 ^ 63) "")).length = 2 ^ 63 ∧
    ∃ w, demoMain 64 1 (List.replicate (2 ^ 63) "") = .ok () w ∧
      w.cell.value = -(2 ^ 63) ∧
      w.cell.value ≠ (((beforeQuit (List.replicate (2 ^ 63) "")).length : Nat) : Int) := by
  have hlen : (beforeQuit (List.replicate (2 ^ 63) "")).length = 2 ^ 63 := by
    rw [beforeQuit_replicate, List.length_replicate]
  obtain ⟨w, h, hv, _⟩ := demoMain_run 64 0 (by decide) (List.replicate (2 ^ 63) "")
  rw [hlen] at hv
  have hwrap : wrapInt 64 (((2 ^ 63 : Nat)) : Int) = -(2 ^ 63) := by
    norm_num [wrapInt]
  refine ⟨hlen, w, h, ?_, ?_⟩
  · rw [hv, hwrap]
  · rw [hv, hwrap, hlen]
    norm_num

/-! ## The zero value of `Reactive` -/

theorem zeroValue_eq_NewReactive (zero : T) : Reactive.zeroValue zero = NewReactive zero :=
  rfl

/-- C19: the code at the zero value.  The zero value of `Reactive[int]` is the
very cell that `NewReactive(0)` constructs (`NewReactive` sets nothing but
`value`): the calls `Get()`, `Subscribe(l)`, `Set(1)`, `Get()` on it return `0`,
notify `l` with `1` and return `1`, exactly as on the constructed cell, and no
sequence of `Get`, `Set` and `Subscribe` calls, with any listeners, gives a
different outcome, state or history on the two. -/
theorem C19_zero_value_runs_as_constructed :
    Reactive.zeroValue (0 : Nat) = NewReactive 0 ∧
    runOps 1 [.get, .subscribe (recorder 1), .set 1, .get] ⟨Reactive.zeroValue 0, []⟩ =
      .ok () ⟨⟨false, 1, [recorder 1]⟩, [.read 0, .write 1, .invoke 0 0 1 1, .read 1]⟩ ∧
    runOps 1 [.get, .subscribe (recorder 1), .set 1, .get] (World.fresh 0) =
      .ok () ⟨⟨false, 1, [recorder 1]⟩, [.read 0, .write 1, .invoke 0 0 1 1, .read 1]⟩ ∧
    ∀ (fuel : Nat) (ops : List (Op Nat)),
      runOps fuel ops ⟨Reactive.zeroValue 0, []⟩ = runOps fuel ops (World.fresh 0) :=
  ⟨rfl, rfl, rfl, fun _ _ => rfl⟩

end State
